import Mathlib

/-!
# gramework routing core: `router.go`

A shallow embedding of the `Router` methods of `router.go`.

Go pointers are addresses into a heap (`World`): `*Router` values index
`World.routers`, `*router` (the Table collaborator) values index
`World.tables`; a nil pointer is `none`.  A method that dereferences a nil
pointer, blocks on a held mutex, or aborts a registration ends in a `Fault`.
The Table is an external collaborator: its state is the history of the
configuration calls made on it, and what it answers at serve time is supplied
by a `Collab` record.
-/

namespace Gramework

/-- Address of a `Router` in the heap. -/
abbrev Ptr := Nat

/-- Address of a Table (`*router`) in the heap. -/
abbrev TPtr := Nat

/-- Ways a call can fail to return normally. -/
inductive Fault
  | nilDeref
  | deadlock
  | fatal
  | outOfFuel
  deriving DecidableEq

/-- Response-side effects written through a request context. -/
inductive Effect
  | redirect (uri : String) (code : Nat)
  | status (code : Nat)
  | write (body : String)
  deriving DecidableEq

/-- Modelled from the spec: the `Context` type is declared outside `router.go`;
the spec (External interfaces) requires it to expose path, method, TLS flag,
byte writing and a redirect operation.  The effects written through the
context are kept as a list, oldest first. -/
structure Context where
  path : String
  method : String
  isTLS : Bool
  effects : List Effect
  deriving DecidableEq

/-- Modelled from the spec: `Context.Redirect(uri, code)` is declared outside
`router.go`; it is the redirect operation of the context collaborator and
records a redirect response to `uri` with status `code`. -/
def Context.Redirect (ctx : Context) (uri : String) (code : Nat) : Context :=
  { ctx with effects := ctx.effects ++ [Effect.redirect uri code] }

/-- The canonical handler `func(*Context)`: it acts on the context it is given. -/
abbrev RequestHandler := Context → Context

/-- A value passed as `handler interface{}`: a `func(*Context)`, or some other
dynamic value identified by a tag. -/
inductive HandlerArg
  | fn (h : RequestHandler)
  | dyn (tag : Nat)

/-- A configuration call made on a Table. -/
inductive TableCall
  | handle (method route : String) (h : RequestHandler)
  | setNotFound (h : RequestHandler)
  | panicHandler (h : Context → String → Context)
  | handleMethodNotAllowed (newValue : Bool)
  | handleOPTIONS (newValue : Bool)
  | serveFiles (path rootPath : String)
  | methodNotAllowed (h : RequestHandler)

/-- The state of a Table: the configuration calls made on it since it was
created, oldest first. -/
abbrev Table := List TableCall

/-- Modelled from the spec: the `Router` struct is declared outside `router.go`;
its fields are the ones the methods use (`app`, `router`, `mu`, `root`,
`httprouter`, `httpsrouter`), as described in the spec's data model.  `mu` is
`true` while the lock is held. -/
structure Router where
  app : Option Nat
  router : Option TPtr
  mu : Bool
  root : Option Ptr
  httprouter : Option Ptr
  httpsrouter : Option Ptr
  deriving DecidableEq

/-- The heap and the diagnostic log. -/
structure World where
  routers : List Router
  tables : List Table
  log : List String

/-- What the collaborators outside `router.go` answer: handler normalization
and the read side of the Table. -/
structure Collab where
  determineHandler : HandlerArg → Option RequestHandler
  process : Table → String → String → Context → Bool × Context
  notFound : Table → Context → Context
  lookup : Table → String → String → Context → Option RequestHandler × Bool
  allowed : Table → String → String → String
  methodNotAllowedMode : Table → Bool
  optionsMode : Table → Bool

/-- Modelled from the spec: the method constants are declared outside
`router.go`; each is the HTTP method of the same name. -/
def MethodGET : String := "GET"
/-- Modelled from the spec: see `MethodGET`. -/
def MethodPOST : String := "POST"
/-- Modelled from the spec: see `MethodGET`. -/
def MethodPUT : String := "PUT"
/-- Modelled from the spec: see `MethodGET`. -/
def MethodPATCH : String := "PATCH"
/-- Modelled from the spec: see `MethodGET`. -/
def MethodDELETE : String := "DELETE"
/-- Modelled from the spec: see `MethodGET`. -/
def MethodHEAD : String := "HEAD"
/-- Modelled from the spec: see `MethodGET`. -/
def MethodOPTIONS : String := "OPTIONS"

/-- Modelled from the spec: `redirectCode` is declared outside `router.go`; the
doc comment of `Redir` gives the status as 301. -/
def redirectCode : Nat := 301

/-- Read the `Router` at address `r`; a nil or dangling address faults. -/
def World.deref (w : World) (r : Ptr) : Except Fault Router :=
  match w.routers[r]? with
  | some R => .ok R
  | none => .error .nilDeref

/-- Read the Table behind a `*router` field; a nil or dangling pointer faults. -/
def World.table (w : World) (t : Option TPtr) : Except Fault Table :=
  match t with
  | none => .error .nilDeref
  | some t =>
    match w.tables[t]? with
    | some T => .ok T
    | none => .error .nilDeref

/-- Store `R` at address `r`. -/
def World.store (w : World) (r : Ptr) (R : Router) : World :=
  { w with routers := w.routers.set r R }

/-- Modelled from the spec: `App.newRouter` is declared outside `router.go`; the
spec only says that a new Table is created, so it allocates a fresh Table
with no configuration call made on it yet and returns its address. -/
def newRouter (w : World) : World × TPtr :=
  ({ w with tables := w.tables ++ [[]] }, w.tables.length)

/-- Modelled from the spec: `Router.initRouter` is declared outside `router.go`;
the spec says it ensures a Table exists (construct-if-absent). -/
def initRouter (w : World) (r : Ptr) : Except Fault World :=
  match w.deref r with
  | .error e => .error e
  | .ok R =>
    match R.router with
    | some _ => .ok w
    | none =>
      let (w1, t) := newRouter w
      .ok (w1.store r { R with router := some t })

/-- Make a configuration call on the Table behind `t`, appending it to that
Table's history. -/
def World.tableCall (w : World) (t : Option TPtr) (call : TableCall) : Except Fault World :=
  match w.table t with
  | .error e => .error e
  | .ok T =>
    match t with
    | none => .error .nilDeref
    | some tp => .ok { w with tables := w.tables.set tp (T ++ [call]) }

/-- `Router.handleReg` -/
def handleReg (c : Collab) (w : World) (r : Ptr) (method route : String)
    (handler : HandlerArg) : Except Fault World :=
  -- r.initRouter()
  match initRouter w r with
  | .error e => .error e
  | .ok w1 =>
    match w1.deref r with
    | .error e => .error e
    | .ok R =>
      -- r.app.Logger.Debugf("registering %s %s", method, route)
      match R.app with
      | none => .error .nilDeref
      | some _ =>
        let w2 : World := { w1 with log := w1.log ++ ["registering " ++ method ++ " " ++ route] }
        -- r.router.Handle(method, route, r.determineHandler(handler))
        match c.determineHandler handler with
        | none => .error .fatal
        | some h => w2.tableCall R.router (TableCall.handle method route h)

/-- `Router.Handle`: registers and returns the receiver. -/
def Handle (c : Collab) (w : World) (r : Ptr) (method route : String)
    (handler : HandlerArg) : Except Fault (World × Ptr) :=
  match handleReg c w r method route handler with
  | .error e => .error e
  | .ok w1 => .ok (w1, r)

/-- `Router.GET` -/
def GET (c : Collab) (w : World) (r : Ptr) (route : String) (handler : HandlerArg) :
    Except Fault (World × Ptr) :=
  match Handle c w r MethodGET route handler with
  | .error e => .error e
  | .ok (w1, _) => .ok (w1, r)

/-- `Router.DELETE` -/
def DELETE (c : Collab) (w : World) (r : Ptr) (route : String) (handler : HandlerArg) :
    Except Fault (World × Ptr) :=
  match Handle c w r MethodDELETE route handler with
  | .error e => .error e
  | .ok (w1, _) => .ok (w1, r)

/-- `Router.HEAD` -/
def HEAD (c : Collab) (w : World) (r : Ptr) (route : String) (handler : HandlerArg) :
    Except Fault (World × Ptr) :=
  match Handle c w r MethodHEAD route handler with
  | .error e => .error e
  | .ok (w1, _) => .ok (w1, r)

/-- `Router.OPTIONS` -/
def OPTIONS (c : Collab) (w : World) (r : Ptr) (route : String) (handler : HandlerArg) :
    Except Fault (World × Ptr) :=
  match Handle c w r MethodOPTIONS route handler with
  | .error e => .error e
  | .ok (w1, _) => .ok (w1, r)

/-- `Router.PUT` -/
def PUT (c : Collab) (w : World) (r : Ptr) (route : String) (handler : HandlerArg) :
    Except Fault (World × Ptr) :=
  match Handle c w r MethodPUT route handler with
  | .error e => .error e
  | .ok (w1, _) => .ok (w1, r)

/-- `Router.POST` -/
def POST (c : Collab) (w : World) (r : Ptr) (route : String) (handler : HandlerArg) :
    Except Fault (World × Ptr) :=
  match Handle c w r MethodPOST route handler with
  | .error e => .error e
  | .ok (w1, _) => .ok (w1, r)

/-- `Router.PATCH` -/
def PATCH (c : Collab) (w : World) (r : Ptr) (route : String) (handler : HandlerArg) :
    Except Fault (World × Ptr) :=
  match Handle c w r MethodPATCH route handler with
  | .error e => .error e
  | .ok (w1, _) => .ok (w1, r)

/-- `Router.Redir`: registers, through `GET`, the closure
`func(ctx) { ctx.Redirect(route, redirectCode) }`; the body makes no use of
`url`. -/
def Redir (c : Collab) (w : World) (r : Ptr) (route url : String) : Except Fault World :=
  match GET c w r route (HandlerArg.fn (fun ctx => ctx.Redirect route redirectCode)) with
  | .error e => .error e
  | .ok (w1, _) => .ok w1

/-- `Router.PanicHandler` -/
def PanicHandler (w : World) (r : Ptr) (panicHandler : Context → String → Context) :
    Except Fault World :=
  match initRouter w r with
  | .error e => .error e
  | .ok w1 =>
    match w1.deref r with
    | .error e => .error e
    | .ok R => w1.tableCall R.router (TableCall.panicHandler panicHandler)

/-- `Router.NotFound` -/
def NotFound (w : World) (r : Ptr) (notFoundHandler : RequestHandler) : Except Fault World :=
  match initRouter w r with
  | .error e => .error e
  | .ok w1 =>
    match w1.deref r with
    | .error e => .error e
    | .ok R => w1.tableCall R.router (TableCall.setNotFound notFoundHandler)

/-- `Router.HandleMethodNotAllowed`: returns the mode the Table had before. -/
def HandleMethodNotAllowed (c : Collab) (w : World) (r : Ptr) (newValue : Bool) :
    Except Fault (World × Bool) :=
  match initRouter w r with
  | .error e => .error e
  | .ok w1 =>
    match w1.deref r with
    | .error e => .error e
    | .ok R =>
      match w1.table R.router with
      | .error e => .error e
      | .ok T =>
        match w1.tableCall R.router (TableCall.handleMethodNotAllowed newValue) with
        | .error e => .error e
        | .ok w2 => .ok (w2, c.methodNotAllowedMode T)

/-- `Router.HandleOPTIONS`: returns the mode the Table had before. -/
def HandleOPTIONS (c : Collab) (w : World) (r : Ptr) (newValue : Bool) :
    Except Fault (World × Bool) :=
  match initRouter w r with
  | .error e => .error e
  | .ok w1 =>
    match w1.deref r with
    | .error e => .error e
    | .ok R =>
      match w1.table R.router with
      | .error e => .error e
      | .ok T =>
        match w1.tableCall R.router (TableCall.handleOPTIONS newValue) with
        | .error e => .error e
        | .ok w2 => .ok (w2, c.optionsMode T)

/-- `Router.ServeFiles` -/
def ServeFiles (w : World) (r : Ptr) (path rootPath : String) : Except Fault World :=
  match w.deref r with
  | .error e => .error e
  | .ok R => w.tableCall R.router (TableCall.serveFiles path rootPath)

/-- `Router.Lookup` -/
def Lookup (c : Collab) (w : World) (r : Ptr) (method path : String) (ctx : Context) :
    Except Fault (Option RequestHandler × Bool) :=
  match w.deref r with
  | .error e => .error e
  | .ok R =>
    match w.table R.router with
    | .error e => .error e
    | .ok T => .ok (c.lookup T method path ctx)

/-- `Router.MethodNotAllowed` -/
def MethodNotAllowed (w : World) (r : Ptr) (h : RequestHandler) : Except Fault World :=
  match w.deref r with
  | .error e => .error e
  | .ok R => w.tableCall R.router (TableCall.methodNotAllowed h)

/-- `Router.Allowed` -/
def Allowed (c : Collab) (w : World) (r : Ptr) (path reqMethod : String) :
    Except Fault String :=
  match w.deref r with
  | .error e => .error e
  | .ok R =>
    match w.table R.router with
    | .error e => .error e
    | .ok T => .ok (c.allowed T path reqMethod)

/-- `Router.HTTP`.  The recursion on `r.root` is bounded by `fuel`. -/
def HTTP : Nat → World → Ptr → Except Fault (World × Option Ptr)
  | 0, _, _ => .error .outOfFuel
  | fuel + 1, w, r =>
    match w.deref r with
    | .error e => .error e
    | .ok R =>
      match R.root with
      | some root => HTTP fuel w root
      | none =>
        -- r.mu.Lock()
        if R.mu then .error .deadlock
        else
          let R1 : Router := { R with mu := true }
          match R1.httprouter with
          | none =>
            let (w1, t) := newRouter w
            let child : Router :=
              { app := R1.app, router := some t, mu := false, root := some r,
                httprouter := none, httpsrouter := none }
            let p := w1.routers.length
            let w2 : World := { w1 with routers := w1.routers ++ [child] }
            let R2 : Router := { R1 with httprouter := some p }
            -- r.mu.Unlock()
            let R3 : Router := { R2 with mu := false }
            .ok (w2.store r R3, R3.httprouter)
          | some _ =>
            let R3 : Router := { R1 with mu := false }
            .ok (w.store r R3, R3.httprouter)

/-- `Router.HTTPS`.  The recursion on `r.root` is bounded by `fuel`. -/
def HTTPS : Nat → World → Ptr → Except Fault (World × Option Ptr)
  | 0, _, _ => .error .outOfFuel
  | fuel + 1, w, r =>
    match w.deref r with
    | .error e => .error e
    | .ok R =>
      match R.root with
      | some root => HTTPS fuel w root
      | none =>
        -- r.mu.Lock()
        if R.mu then .error .deadlock
        else
          let R1 : Router := { R with mu := true }
          match R1.httpsrouter with
          | none =>
            let (w1, t) := newRouter w
            let child : Router :=
              { app := R1.app, router := some t, mu := false, root := some r,
                httprouter := none, httpsrouter := none }
            let p := w1.routers.length
            let w2 : World := { w1 with routers := w1.routers ++ [child] }
            let R2 : Router := { R1 with httpsrouter := some p }
            -- r.mu.Unlock()
            let R3 : Router := { R2 with mu := false }
            .ok (w2.store r R3, R3.httpsrouter)
          | some _ =>
            let R3 : Router := { R1 with mu := false }
            .ok (w.store r R3, R3.httpsrouter)

/-- A call made on a Table while a request is served. -/
inductive Event
  | process (t : TPtr) (method path : String)
  | notFound (t : TPtr)
  deriving DecidableEq

/-- The statement
`if !x.router.Process(method, path, ctx) { x.router.NotFound(ctx) }`
for a child pointer `x`: the calls made, in order, and the context left
behind.  A nil `x` or a nil `x.router` faults before any call is made. -/
def processOrNotFound (c : Collab) (w : World) (x : Option Ptr) (method path : String)
    (ctx : Context) : Except Fault (List Event × Context) :=
  match x with
  | none => .error .nilDeref
  | some p =>
    match w.deref p with
    | .error e => .error e
    | .ok X =>
      match X.router with
      | none => .error .nilDeref
      | some t =>
        match w.table (some t) with
        | .error e => .error e
        | .ok T =>
          let res := c.process T method path ctx
          if !res.1 then
            .ok ([Event.process t method path, Event.notFound t], c.notFound T res.2)
          else
            .ok ([Event.process t method path], res.2)

/-- `Router.Handler`: the closure it returns captures `r` only, so serving a
request is a function of the heap at that time, `r` and the context.  All
three `Process`/`NotFound` statements of the source go through
`r.httpsrouter`, the one under `case false` included. -/
def Handler (c : Collab) (w : World) (r : Ptr) (ctx : Context) :
    Except Fault (List Event × Context) :=
  let path := ctx.path
  let method := ctx.method
  match w.deref r with
  | .error e => .error e
  | .ok R =>
    match ctx.isTLS with
    | true =>
      if R.httpsrouter ≠ none then
        processOrNotFound c w R.httpsrouter method path ctx
      else
        -- after the switch
        processOrNotFound c w R.httpsrouter method path ctx
    | false =>
      if R.httprouter ≠ none then
        processOrNotFound c w R.httpsrouter method path ctx
      else
        -- after the switch
        processOrNotFound c w R.httpsrouter method path ctx

/-! ## A concrete collaborator and concrete heaps -/

/-- The handler of the latest registration for exactly `method` and `path`. -/
def findRoute : Table → String → String → Option RequestHandler
  | [], _, _ => none
  | TableCall.handle m p h :: rest, method, path =>
    match findRoute rest method path with
    | some h2 => some h2
    | none => if m = method ∧ p = path then some h else none
  | _ :: rest, method, path => findRoute rest method path

/-- The latest not-found handler installed, if any. -/
def findNotFound : Table → Option RequestHandler
  | [] => none
  | TableCall.setNotFound h :: rest =>
    match findNotFound rest with
    | some h2 => some h2
    | none => some h
  | _ :: rest => findNotFound rest

/-- A simple collaborator: exact-match routing, a 404 status when no
not-found handler is installed, and only `func(*Context)` handlers accepted. -/
def sampleCollab : Collab where
  determineHandler := fun a =>
    match a with
    | HandlerArg.fn h => some h
    | HandlerArg.dyn _ => none
  process := fun T method path ctx =>
    match findRoute T method path with
    | some h => (true, h ctx)
    | none => (false, ctx)
  notFound := fun T ctx =>
    match findNotFound T with
    | some h => h ctx
    | none => { ctx with effects := ctx.effects ++ [Effect.status 404] }
  lookup := fun T method path _ =>
    match findRoute T method path with
    | some h => (some h, true)
    | none => (none, false)
  allowed := fun _ _ _ => ""
  methodNotAllowedMode := fun _ => true
  optionsMode := fun _ => true

/-- A root `Router` of application 0 with no Table and no children. -/
def rootRouter : Router :=
  { app := some 0, router := none, mu := false, root := none,
    httprouter := none, httpsrouter := none }

/-- A heap holding only `rootRouter`, at address 0. -/
def freshWorld : World := { routers := [rootRouter], tables := [], log := [] }

/-- A handler that writes `body`. -/
def writer (body : String) : RequestHandler :=
  fun ctx => { ctx with effects := ctx.effects ++ [Effect.write body] }

/-- A request for `method` and `path` on which nothing was written yet. -/
def request (method path : String) (tls : Bool) : Context :=
  { path := path, method := method, isTLS := tls, effects := [] }

/-- Call `f` on the pointer a previous call returned; a nil receiver faults. -/
def callOn (x : Except Fault (World × Option Ptr))
    (f : World → Ptr → Except Fault (World × Option Ptr)) : Except Fault (World × Option Ptr) :=
  match x with
  | .error e => .error e
  | .ok (_, none) => .error .nilDeref
  | .ok (w, some p) => f w p

/-- The heap after `r.HTTPS()` on the fresh root: TLS child at address 1 with
Table 0. -/
def tlsOnlyWorld : World :=
  { routers := [{ rootRouter with httpsrouter := some 1 },
                { app := some 0, router := some 0, mu := false, root := some 0,
                  httprouter := none, httpsrouter := none }],
    tables := [[]], log := [] }

/-- The heap after `r.HTTP()` on the fresh root: non-TLS child at address 1
with Table 0. -/
def httpOnlyWorld : World :=
  { routers := [{ rootRouter with httprouter := some 1 },
                { app := some 0, router := some 0, mu := false, root := some 0,
                  httprouter := none, httpsrouter := none }],
    tables := [[]], log := [] }

/-- The heap after `r.HTTP()` then `r.HTTPS()` on the fresh root: non-TLS child
at address 1 with Table 0, TLS child at address 2 with Table 1. -/
def bothEmptyWorld : World :=
  { routers := [{ rootRouter with httprouter := some 1, httpsrouter := some 2 },
                { app := some 0, router := some 0, mu := false, root := some 0,
                  httprouter := none, httpsrouter := none },
                { app := some 0, router := some 1, mu := false, root := some 0,
                  httprouter := none, httpsrouter := none }],
    tables := [[], []], log := [] }

/-- The heap `bothEmptyWorld` after `r.HTTP().GET("/x", writer "plain")`: the
route is in Table 0, the non-TLS child's. -/
def bothWorld : World :=
  { bothEmptyWorld with
    tables := [[TableCall.handle "GET" "/x" (writer "plain")], []],
    log := ["registering GET /x"] }

/-- The heap `tlsOnlyWorld` after `Redir("/old", "/new")` on the TLS child. -/
def redirWorld : World :=
  { tlsOnlyWorld with
    tables := [[TableCall.handle "GET" "/old" (fun ctx => ctx.Redirect "/old" 301)]],
    log := ["registering GET /old"] }

/-- The root of `bothEmptyWorld`. -/
def bothRoot : Router := { rootRouter with httprouter := some 1, httpsrouter := some 2 }

/-- The heap `bothEmptyWorld` after `r.GET("/x", writer "root")` on the root
itself: the root now owns Table 2, which holds the route. -/
def rootRegisteredWorld : World :=
  { routers := [{ bothRoot with router := some 2 },
                { app := some 0, router := some 0, mu := false, root := some 0,
                  httprouter := none, httpsrouter := none },
                { app := some 0, router := some 1, mu := false, root := some 0,
                  httprouter := none, httpsrouter := none }],
    tables := [[], [], [TableCall.handle "GET" "/x" (writer "root")]],
    log := ["registering GET /x"] }

/-- The Table an event was a call on. -/
def Event.table : Event → TPtr
  | Event.process t _ _ => t
  | Event.notFound t => t

/-- The two transport accessors of a `Router`. -/
inductive Transport
  | http
  | https
  deriving DecidableEq

/-- Call `HTTP()` or `HTTPS()`. -/
def Transport.call (k : Transport) (fuel : Nat) (w : World) (r : Ptr) :
    Except Fault (World × Option Ptr) :=
  match k with
  | Transport.http => HTTP fuel w r
  | Transport.https => HTTPS fuel w r

/-- The child field a transport accessor returns. -/
def Transport.child (k : Transport) (R : Router) : Option Ptr :=
  match k with
  | Transport.http => R.httprouter
  | Transport.https => R.httpsrouter

/-- Make the calls `ks` on `r` one after the other, collecting what each
returned. -/
def runCalls (fuel : Nat) : List Transport → World → Ptr →
    Except Fault (World × List (Option Ptr))
  | [], w, _ => .ok (w, [])
  | k :: ks, w, r =>
    match k.call fuel w r with
    | .error e => .error e
    | .ok (w1, p) =>
      match runCalls fuel ks w1 r with
      | .error e => .error e
      | .ok (w2, ps) => .ok (w2, p :: ps)

/-- `c` is a transport-specific child of `r`: it points back to `r`, has no
children of its own, and owns an allocated Table. -/
def LeafOf (w : World) (r c : Ptr) : Prop :=
  ∃ C t, w.routers[c]? = some C ∧ C.root = some r ∧ C.httprouter = none
    ∧ C.httpsrouter = none ∧ C.router = some t ∧ t < w.tables.length

/-- The shape in which the methods of `router.go` leave a root `Router` `R` at
address `r`: no root reference, lock released, each child present a leaf of
`r`, and the Tables of the root and of its children allocated and pairwise
different.  It holds of the fresh root and is kept by every heap-changing
method called on the root or on one of its children (`reachable_inv`). -/
structure RootInv (w : World) (r : Ptr) (R : Router) : Prop where
  at_r : w.routers[r]? = some R
  is_root : R.root = none
  unlocked : R.mu = false
  http_leaf : ∀ c, R.httprouter = some c → LeafOf w r c
  https_leaf : ∀ d, R.httpsrouter = some d → LeafOf w r d
  distinct : ∀ c d, R.httprouter = some c → R.httpsrouter = some d → c ≠ d
  tables_distinct : ∀ c d C D, R.httprouter = some c → R.httpsrouter = some d →
    w.routers[c]? = some C → w.routers[d]? = some D → C.router ≠ D.router
  own_table : ∀ t, R.router = some t → t < w.tables.length
  own_distinct : ∀ c C, R.httprouter = some c ∨ R.httpsrouter = some c →
    w.routers[c]? = some C → C.router ≠ R.router

/-- The seven method shortcuts. -/
def shortcuts : List (Collab → World → Ptr → String → HandlerArg → Except Fault (World × Ptr)) :=
  [GET, POST, PUT, PATCH, DELETE, HEAD, OPTIONS]

/-- A call of one of the heap-changing methods of `router.go` on the receiver
`q`. -/
inductive ApiCall
  | http (q : Ptr)
  | https (q : Ptr)
  | handle (q : Ptr) (method route : String) (handler : HandlerArg)
  | redir (q : Ptr) (route url : String)
  | panicHandler (q : Ptr) (h : Context → String → Context)
  | notFound (q : Ptr) (h : RequestHandler)
  | handleMethodNotAllowed (q : Ptr) (newValue : Bool)
  | handleOPTIONS (q : Ptr) (newValue : Bool)
  | serveFiles (q : Ptr) (path rootPath : String)
  | methodNotAllowed (q : Ptr) (h : RequestHandler)

/-- The receiver of a call. -/
def ApiCall.receiver : ApiCall → Ptr
  | ApiCall.http q => q
  | ApiCall.https q => q
  | ApiCall.handle q _ _ _ => q
  | ApiCall.redir q _ _ => q
  | ApiCall.panicHandler q _ => q
  | ApiCall.notFound q _ => q
  | ApiCall.handleMethodNotAllowed q _ => q
  | ApiCall.handleOPTIONS q _ => q
  | ApiCall.serveFiles q _ _ => q
  | ApiCall.methodNotAllowed q _ => q

/-- The heap a call leaves. -/
def ApiCall.run (c : Collab) (fuel : Nat) (w : World) : ApiCall → Except Fault World
  | ApiCall.http q => (HTTP fuel w q).map Prod.fst
  | ApiCall.https q => (HTTPS fuel w q).map Prod.fst
  | ApiCall.handle q method route handler => (Handle c w q method route handler).map Prod.fst
  | ApiCall.redir q route url => Redir c w q route url
  | ApiCall.panicHandler q h => PanicHandler w q h
  | ApiCall.notFound q h => NotFound w q h
  | ApiCall.handleMethodNotAllowed q v => (HandleMethodNotAllowed c w q v).map Prod.fst
  | ApiCall.handleOPTIONS q v => (HandleOPTIONS c w q v).map Prod.fst
  | ApiCall.serveFiles q path rootPath => ServeFiles w q path rootPath
  | ApiCall.methodNotAllowed q h => MethodNotAllowed w q h

/-- The heaps reached from the fresh root by calls, each made on the root or on
one of its transport-specific children, that return. -/
inductive Reachable (c : Collab) : World → Prop
  | fresh : Reachable c freshWorld
  | step (w w2 : World) (fuel : Nat) (a : ApiCall) :
      Reachable c w → (a.receiver = 0 ∨ LeafOf w 0 a.receiver) →
      a.run c fuel w = .ok w2 → Reachable c w2

/-! ## Facts about the concrete heaps -/

theorem tlsOnlyWorld_built : HTTPS 1 freshWorld 0 = .ok (tlsOnlyWorld, some 1) := rfl

theorem httpOnlyWorld_built : HTTP 1 freshWorld 0 = .ok (httpOnlyWorld, some 1) := rfl

theorem bothEmptyWorld_built : HTTPS 1 httpOnlyWorld 0 = .ok (bothEmptyWorld, some 2) := rfl

theorem bothWorld_built :
    GET sampleCollab bothEmptyWorld 1 "/x" (HandlerArg.fn (writer "plain"))
      = .ok (bothWorld, 1) := rfl

/-! ## Dispatch -/

/-- Whatever the transport and whatever the non-TLS child, `Handler` runs the
`Process`/`NotFound` statement on `r.httpsrouter`. -/
theorem Handler_eq (c : Collab) (w : World) (r : Ptr) (R : Router) (ctx : Context)
    (hr : w.routers[r]? = some R) :
    Handler c w r ctx = processOrNotFound c w R.httpsrouter ctx.method ctx.path ctx := by
  simp only [Handler, World.deref, hr]
  cases ctx.isTLS <;> simp

/-- The `Process`/`NotFound` statement on a child that has a Table. -/
theorem processOrNotFound_some (c : Collab) (w : World) (p : Ptr) (X : Router) (t : TPtr)
    (T : Table) (method path : String) (ctx : Context)
    (hX : w.routers[p]? = some X) (ht : X.router = some t) (hT : w.tables[t]? = some T) :
    processOrNotFound c w (some p) method path ctx =
      if (c.process T method path ctx).1 = true then
        .ok ([Event.process t method path], (c.process T method path ctx).2)
      else
        .ok ([Event.process t method path, Event.notFound t],
          c.notFound T (c.process T method path ctx).2) := by
  simp only [processOrNotFound, World.deref, hX, ht, World.table, hT]
  cases (c.process T method path ctx).1 <;> simp

/-- C1 (the code departs from the claim): on the heap `bothWorld`, whose non-TLS
child (address 1) owns Table 0 with a `GET /x` route and whose TLS child
(address 2) owns the empty Table 1, a non-TLS `GET /x` is run through Table 1,
the TLS child's; Table 0 is not queried and the request ends in Table 1's
not-found handler. -/
theorem Handler_nonTLS_queries_TLS_table :
    (bothWorld.routers[0]?.bind Router.httprouter = some 1
      ∧ bothWorld.routers[1]?.bind Router.router = some 0
      ∧ bothWorld.routers[0]?.bind Router.httpsrouter = some 2
      ∧ bothWorld.routers[2]?.bind Router.router = some 1)
    ∧ Handler sampleCollab bothWorld 0 (request "GET" "/x" false)
        = .ok ([Event.process 1 "GET" "/x", Event.notFound 1],
            { request "GET" "/x" false with effects := [Effect.status 404] })
    ∧ processOrNotFound sampleCollab bothWorld (some 1) "GET" "/x" (request "GET" "/x" false)
        = .ok ([Event.process 0 "GET" "/x"],
            { request "GET" "/x" false with effects := [Effect.write "plain"] }) :=
  ⟨⟨rfl, rfl, rfl, rfl⟩, rfl, rfl⟩

/-- C2 (the code departs from the claim): when the TLS child is absent, with or
without a non-TLS child, serving any request, TLS or not, dereferences the nil
`r.httpsrouter`. -/
theorem Handler_nil_TLS_child_faults (c : Collab) (ctx : Context) :
    Handler c freshWorld 0 ctx = .error Fault.nilDeref
    ∧ Handler c httpOnlyWorld 0 ctx = .error Fault.nilDeref := by
  constructor
  · rw [Handler_eq c freshWorld 0 rootRouter ctx rfl]; rfl
  · rw [Handler_eq c httpOnlyWorld 0 { rootRouter with httprouter := some 1 } ctx rfl]; rfl

/-- C3: when the TLS child exists (with the Table `HTTPS()` gave it) and the
request is TLS, `Handler` calls `Process` once on that Table with the request's
method and path, and then that Table's not-found handler once if `Process`
returned false and not at all if it returned true. -/
theorem Handler_TLS_request (c : Collab) (w : World) (r : Ptr) (R : Router) (sp : Ptr)
    (S : Router) (t : TPtr) (T : Table) (ctx : Context)
    (hr : w.routers[r]? = some R) (hs : R.httpsrouter = some sp)
    (hS : w.routers[sp]? = some S) (ht : S.router = some t) (hT : w.tables[t]? = some T)
    (htls : ctx.isTLS = true) :
    Handler c w r ctx =
      if (c.process T ctx.method ctx.path ctx).1 = true then
        .ok ([Event.process t ctx.method ctx.path], (c.process T ctx.method ctx.path ctx).2)
      else
        .ok ([Event.process t ctx.method ctx.path, Event.notFound t],
          c.notFound T (c.process T ctx.method ctx.path ctx).2) := by
  simp only [Handler, World.deref, hr, htls, hs]
  simpa using processOrNotFound_some c w sp S t T ctx.method ctx.path ctx hS ht hT

theorem Handler_TLS_request_witness :
    Handler sampleCollab tlsOnlyWorld 0 (request "GET" "/x" true) =
      .ok ([Event.process 0 "GET" "/x", Event.notFound 0],
        { request "GET" "/x" true with effects := [Effect.status 404] }) :=
  Handler_TLS_request sampleCollab tlsOnlyWorld 0 { rootRouter with httpsrouter := some 1 } 1
    { app := some 0, router := some 0, mu := false, root := some 0,
      httprouter := none, httpsrouter := none } 0 [] (request "GET" "/x" true)
    rfl rfl rfl rfl rfl rfl

/-- C4: when the TLS child exists (with the Table `HTTPS()` gave it), the
non-TLS child does not, and the request is not TLS, `Handler` returns normally:
it calls `Process` on the TLS child's Table and, when that reports no match,
that Table's not-found handler. -/
theorem Handler_nonTLS_falls_back_to_TLS (c : Collab) (w : World) (r : Ptr) (R : Router)
    (sp : Ptr) (S : Router) (t : TPtr) (T : Table) (ctx : Context)
    (hr : w.routers[r]? = some R) (hh : R.httprouter = none) (hs : R.httpsrouter = some sp)
    (hS : w.routers[sp]? = some S) (ht : S.router = some t) (hT : w.tables[t]? = some T)
    (htls : ctx.isTLS = false) :
    Handler c w r ctx =
      if (c.process T ctx.method ctx.path ctx).1 = true then
        .ok ([Event.process t ctx.method ctx.path], (c.process T ctx.method ctx.path ctx).2)
      else
        .ok ([Event.process t ctx.method ctx.path, Event.notFound t],
          c.notFound T (c.process T ctx.method ctx.path ctx).2) := by
  simp only [Handler, World.deref, hr, htls, hh, hs]
  simpa using processOrNotFound_some c w sp S t T ctx.method ctx.path ctx hS ht hT

theorem Handler_nonTLS_falls_back_to_TLS_witness :
    Handler sampleCollab tlsOnlyWorld 0 (request "GET" "/x" false) =
      .ok ([Event.process 0 "GET" "/x", Event.notFound 0],
        { request "GET" "/x" false with effects := [Effect.status 404] }) :=
  Handler_nonTLS_falls_back_to_TLS sampleCollab tlsOnlyWorld 0
    { rootRouter with httpsrouter := some 1 } 1
    { app := some 0, router := some 0, mu := false, root := some 0,
      httprouter := none, httpsrouter := none } 0 [] (request "GET" "/x" false)
    rfl rfl rfl rfl rfl rfl rfl

/-! ## Registration -/

theorem lt_of_getElem?_some {α : Type} {l : List α} {i : Nat} {a : α} (h : l[i]? = some a) :
    i < l.length := by
  rcases List.getElem?_eq_some.mp h with ⟨hlt, _⟩
  exact hlt

theorem initRouter_present (w : World) (r : Ptr) (R : Router) (t : TPtr)
    (hr : w.routers[r]? = some R) (ht : R.router = some t) : initRouter w r = .ok w := by
  simp [initRouter, World.deref, hr, ht]

theorem initRouter_absent (w : World) (r : Ptr) (R : Router)
    (hr : w.routers[r]? = some R) (ht : R.router = none) :
    initRouter w r =
      .ok { w with routers := w.routers.set r { R with router := some w.tables.length },
                   tables := w.tables ++ [[]] } := by
  simp [initRouter, World.deref, hr, ht, newRouter, World.store]

/-- What a successful `handleReg` does: the Table is ensured, the diagnostic
line is logged, and the normalized handler is installed under the given method
and route in the receiver's own Table. -/
theorem handleReg_ok (c : Collab) (w : World) (r : Ptr) (method route : String)
    (handler : HandlerArg) (R : Router) (h : RequestHandler)
    (hr : w.routers[r]? = some R) (happ : R.app ≠ none)
    (hh : c.determineHandler handler = some h)
    (hb : ∀ t, R.router = some t → t < w.tables.length) :
    ∃ w1 R1 t T, initRouter w r = .ok w1 ∧ w1.routers[r]? = some R1 ∧ R1.router = some t
      ∧ w1.tables[t]? = some T
      ∧ handleReg c w r method route handler =
          .ok { w1 with log := w1.log ++ ["registering " ++ method ++ " " ++ route],
                        tables := w1.tables.set t (T ++ [TableCall.handle method route h]) } := by
  obtain ⟨a, ha⟩ := Option.ne_none_iff_exists'.mp happ
  cases ht : R.router with
  | some t =>
    have hlt := hb t ht
    refine ⟨w, R, t, w.tables[t], initRouter_present w r R t hr ht, hr, ht,
      List.getElem?_eq_getElem hlt, ?_⟩
    simp [handleReg, initRouter_present w r R t hr ht, World.deref, hr, ha, hh,
      World.tableCall, World.table, ht, List.getElem?_eq_getElem hlt]
  | none =>
    have hlt := lt_of_getElem?_some hr
    refine ⟨_, { R with router := some w.tables.length }, w.tables.length, [],
      initRouter_absent w r R hr ht, ?_, rfl, ?_, ?_⟩
    · simp [List.getElem?_set_self hlt]
    · simp
    · simp [handleReg, initRouter_absent w r R hr ht, World.deref, List.getElem?_set_self hlt,
        ha, hh, World.tableCall, World.table]

/-- C7 (the code departs from the claim): `Redir` never uses `url`, so what it
does is the same for every `url`; the handler it registers redirects to
`route`.  On the heap `tlsOnlyWorld`, `Redir("/old", "/new")` on the TLS child
installs a `GET /old` handler (heap `redirWorld`), and a TLS `GET /old` is
answered by a 301 redirect to `/old`, not to `/new`. -/
theorem Redir_redirects_to_route :
    (∀ (c : Collab) (w : World) (r : Ptr) (route url url2 : String),
        Redir c w r route url = Redir c w r route url2)
    ∧ Redir sampleCollab tlsOnlyWorld 1 "/old" "/new" = .ok redirWorld
    ∧ Handler sampleCollab redirWorld 0 (request "GET" "/old" true) =
        .ok ([Event.process 0 "GET" "/old"],
          { request "GET" "/old" true with effects := [Effect.redirect "/old" 301] }) :=
  ⟨fun _ _ _ _ _ _ => rfl, rfl, rfl⟩

/-- C8: each of `GET`, `POST`, `PUT`, `PATCH`, `DELETE`, `HEAD`, `OPTIONS` is
`Handle` with the method constant of the same name; `Handle` returns its
receiver whenever it returns; and on an allocated receiver with an application,
an accepted handler and no dangling Table pointer it does return, having
ensured the Table, logged the registration and installed the normalized handler
under the given method and unchanged route in the receiver's own Table. -/
theorem shortcuts_are_Handle (c : Collab) (w : World) (r : Ptr) (route : String)
    (handler : HandlerArg) :
    GET c w r route handler = Handle c w r MethodGET route handler
    ∧ POST c w r route handler = Handle c w r MethodPOST route handler
    ∧ PUT c w r route handler = Handle c w r MethodPUT route handler
    ∧ PATCH c w r route handler = Handle c w r MethodPATCH route handler
    ∧ DELETE c w r route handler = Handle c w r MethodDELETE route handler
    ∧ HEAD c w r route handler = Handle c w r MethodHEAD route handler
    ∧ OPTIONS c w r route handler = Handle c w r MethodOPTIONS route handler
    ∧ (∀ method w1 p, Handle c w r method route handler = .ok (w1, p) → p = r)
    ∧ (∀ method R h, w.routers[r]? = some R → R.app ≠ none →
        c.determineHandler handler = some h →
        (∀ t, R.router = some t → t < w.tables.length) →
        ∃ w1 R1 t T, initRouter w r = .ok w1 ∧ w1.routers[r]? = some R1
          ∧ R1.router = some t ∧ w1.tables[t]? = some T
          ∧ Handle c w r method route handler =
              .ok ({ w1 with
                     log := w1.log ++ ["registering " ++ method ++ " " ++ route],
                     tables := w1.tables.set t (T ++ [TableCall.handle method route h]) },
                   r)) := by
  have key : ∀ method, (match Handle c w r method route handler with
      | .error e => (.error e : Except Fault (World × Ptr))
      | .ok (w1, _) => .ok (w1, r)) = Handle c w r method route handler := by
    intro method
    unfold Handle
    cases handleReg c w r method route handler <;> rfl
  refine ⟨key _, key _, key _, key _, key _, key _, key _, ?_, ?_⟩
  · intro method w1 p hp
    unfold Handle at hp
    cases hreg : handleReg c w r method route handler with
    | error e => simp [hreg] at hp
    | ok w2 =>
      simp only [hreg, Except.ok.injEq, Prod.mk.injEq] at hp
      exact hp.2.symm
  · intro method R h hr happ hh hb
    obtain ⟨w1, R1, t, T, h1, h2, h3, h4, h5⟩ :=
      handleReg_ok c w r method route handler R h hr happ hh hb
    exact ⟨w1, R1, t, T, h1, h2, h3, h4, by simp [Handle, h5]⟩

theorem shortcuts_are_Handle_witness :
    ∃ w1 R1 t T, initRouter freshWorld 0 = .ok w1 ∧ w1.routers[0]? = some R1
      ∧ R1.router = some t ∧ w1.tables[t]? = some T
      ∧ Handle sampleCollab freshWorld 0 "GET" "/x" (HandlerArg.fn (writer "hi")) =
          .ok ({ w1 with
                 log := w1.log ++ ["registering " ++ "GET" ++ " " ++ "/x"],
                 tables := w1.tables.set t (T ++ [TableCall.handle "GET" "/x" (writer "hi")]) },
               0) :=
  (shortcuts_are_Handle sampleCollab freshWorld 0 "/x" (HandlerArg.fn (writer "hi"))).2.2.2.2.2.2.2.2
    "GET" rootRouter (writer "hi") rfl (by decide) rfl (by intro t ht; cases ht)

/-! ## Pass-through operations -/

/-- C9 (the code departs from the claim): on the fresh root, whose Table is
absent, `ServeFiles`, `Lookup`, `MethodNotAllowed` and `Allowed` call the nil
`r.router` without `initRouter`, while `PanicHandler`, `NotFound`,
`HandleMethodNotAllowed` and `HandleOPTIONS` first create Table 0 and then
forward to it. -/
theorem passthrough_on_absent_table (c : Collab) (h : RequestHandler)
    (ph : Context → String → Context) (ctx : Context) (a b : String) (v : Bool) :
    ServeFiles freshWorld 0 a b = .error Fault.nilDeref
    ∧ Lookup c freshWorld 0 a b ctx = .error Fault.nilDeref
    ∧ MethodNotAllowed freshWorld 0 h = .error Fault.nilDeref
    ∧ Allowed c freshWorld 0 a b = .error Fault.nilDeref
    ∧ PanicHandler freshWorld 0 ph =
        .ok { routers := [{ rootRouter with router := some 0 }],
              tables := [[TableCall.panicHandler ph]], log := [] }
    ∧ NotFound freshWorld 0 h =
        .ok { routers := [{ rootRouter with router := some 0 }],
              tables := [[TableCall.setNotFound h]], log := [] }
    ∧ HandleMethodNotAllowed c freshWorld 0 v =
        .ok ({ routers := [{ rootRouter with router := some 0 }],
               tables := [[TableCall.handleMethodNotAllowed v]], log := [] },
             c.methodNotAllowedMode [])
    ∧ HandleOPTIONS c freshWorld 0 v =
        .ok ({ routers := [{ rootRouter with router := some 0 }],
               tables := [[TableCall.handleOPTIONS v]], log := [] },
             c.optionsMode []) :=
  ⟨rfl, rfl, rfl, rfl, rfl, rfl, rfl, rfl⟩
theorem set_same {α : Type} (l : List α) (i : Nat) (a : α) (h : l[i]? = some a) :
    l.set i a = l := by
  apply List.ext_getElem?
  intro j
  by_cases hij : i = j
  · subst hij
    rw [List.getElem?_set_self (lt_of_getElem?_some h), h]
  · rw [List.getElem?_set_ne hij]

theorem HTTP_root_present (f : Nat) (w : World) (r : Ptr) (R : Router) (c : Ptr)
    (hr : w.routers[r]? = some R) (hroot : R.root = none) (hmu : R.mu = false)
    (hc : R.httprouter = some c) : HTTP (f + 1) w r = .ok (w, some c) := by
  obtain ⟨app, router, mu, root, hp, hsp⟩ := R
  simp only at hroot hmu hc
  subst hroot hmu hc
  simp [HTTP, World.deref, hr, World.store, set_same _ _ _ hr]

theorem HTTP_root_absent (f : Nat) (w : World) (r : Ptr) (R : Router)
    (hr : w.routers[r]? = some R) (hroot : R.root = none) (hmu : R.mu = false)
    (hc : R.httprouter = none) :
    HTTP (f + 1) w r =
      .ok ({ routers := (w.routers ++ [({ app := R.app, router := some w.tables.length,
                                          mu := false, root := some r, httprouter := none,
                                          httpsrouter := none } : Router)]).set r
                          { R with httprouter := some w.routers.length },
             tables := w.tables ++ [[]], log := w.log }, some w.routers.length) := by
  obtain ⟨app, router, mu, root, hp, hsp⟩ := R
  simp only at hroot hmu hc
  subst hroot hmu hc
  simp [HTTP, World.deref, hr, World.store, newRouter]

theorem HTTPS_root_present (f : Nat) (w : World) (r : Ptr) (R : Router) (c : Ptr)
    (hr : w.routers[r]? = some R) (hroot : R.root = none) (hmu : R.mu = false)
    (hc : R.httpsrouter = some c) : HTTPS (f + 1) w r = .ok (w, some c) := by
  obtain ⟨app, router, mu, root, hp, hsp⟩ := R
  simp only at hroot hmu hc
  subst hroot hmu hc
  simp [HTTPS, World.deref, hr, World.store, set_same _ _ _ hr]

theorem HTTPS_root_absent (f : Nat) (w : World) (r : Ptr) (R : Router)
    (hr : w.routers[r]? = some R) (hroot : R.root = none) (hmu : R.mu = false)
    (hc : R.httpsrouter = none) :
    HTTPS (f + 1) w r =
      .ok ({ routers := (w.routers ++ [({ app := R.app, router := some w.tables.length,
                                          mu := false, root := some r, httprouter := none,
                                          httpsrouter := none } : Router)]).set r
                          { R with httpsrouter := some w.routers.length },
             tables := w.tables ++ [[]], log := w.log }, some w.routers.length) := by
  obtain ⟨app, router, mu, root, hp, hsp⟩ := R
  simp only at hroot hmu hc
  subst hroot hmu hc
  simp [HTTPS, World.deref, hr, World.store, newRouter]

theorem HTTP_leaf (f : Nat) (w : World) (r c : Ptr) (hl : LeafOf w r c) :
    HTTP (f + 1) w c = HTTP f w r := by
  obtain ⟨C, t, hC, hroot, _⟩ := hl
  simp [HTTP, World.deref, hC, hroot]

theorem HTTPS_leaf (f : Nat) (w : World) (r c : Ptr) (hl : LeafOf w r c) :
    HTTPS (f + 1) w c = HTTPS f w r := by
  obtain ⟨C, t, hC, hroot, _⟩ := hl
  simp [HTTPS, World.deref, hC, hroot]
theorem grown_at_root {α : Type} (rs : List α) (ch R2 : α) (r : Nat) (hr : r < rs.length) :
    ((rs ++ [ch]).set r R2)[r]? = some R2 := by
  apply List.getElem?_set_self
  simp; omega

theorem grown_at_new {α : Type} (rs : List α) (ch R2 : α) (r : Nat) (hr : r < rs.length) :
    ((rs ++ [ch]).set r R2)[rs.length]? = some ch := by
  rw [List.getElem?_set_ne (by omega)]
  exact List.getElem?_concat_length rs ch

theorem grown_at_old {α : Type} (rs : List α) (ch R2 Q : α) (r q : Nat) (hq : q ≠ r)
    (h : rs[q]? = some Q) : ((rs ++ [ch]).set r R2)[q]? = some Q := by
  rw [List.getElem?_set_ne (Ne.symm hq), List.getElem?_append_left (lt_of_getElem?_some h), h]

theorem LeafOf.ne_root {w : World} {r c : Ptr} {R : Router} (hl : LeafOf w r c)
    (hr : w.routers[r]? = some R) (hroot : R.root = none) : c ≠ r := by
  obtain ⟨C, t, hC, hCroot, _⟩ := hl
  intro h
  subst h
  rw [hr] at hC
  cases hC
  rw [hroot] at hCroot
  cases hCroot

theorem LeafOf.grown {w : World} {r c : Ptr} {R : Router} (hl : LeafOf w r c)
    (hr : w.routers[r]? = some R) (hroot : R.root = none) (ch R2 : Router) (lg : List String) :
    LeafOf { routers := (w.routers ++ [ch]).set r R2, tables := w.tables ++ [[]], log := lg }
      r c := by
  have hne := hl.ne_root hr hroot
  obtain ⟨C, t, hC, h1, h2, h3, h4, h5⟩ := hl
  refine ⟨C, t, grown_at_old _ _ _ _ _ _ hne hC, h1, h2, h3, h4, ?_⟩
  show t < (w.tables ++ [[]]).length
  rw [List.length_append]
  exact Nat.lt_add_right _ h5

/-- `HTTP()` on a root in the invariant returns a child, and leaves the root in
the invariant with that child in `httprouter`, the TLS child and the root's own
Table pointer as before; a child already present is the one returned and the
heap is not touched. -/
theorem RootInv.after_HTTP {w : World} {r : Ptr} {R : Router} (inv : RootInv w r R) (f : Nat) :
    ∃ w2 R2 c, HTTP (f + 1) w r = .ok (w2, some c) ∧ RootInv w2 r R2
      ∧ R2.httprouter = some c ∧ R2.httpsrouter = R.httpsrouter ∧ R2.router = R.router
      ∧ (∀ c0, R.httprouter = some c0 → c0 = c ∧ w2 = w)
      ∧ (R.httprouter = none → c = w.routers.length)
      ∧ (∀ x, LeafOf w r x → LeafOf w2 r x) := by
  cases hc : R.httprouter with
  | some c =>
    exact ⟨w, R, c, HTTP_root_present f w r R c inv.at_r inv.is_root inv.unlocked hc, inv, hc,
      rfl, rfl, fun c0 h0 => ⟨(Option.some.inj h0).symm, rfl⟩, (fun h => by cases h),
      fun _ hx => hx⟩
  | none =>
    have hlt := lt_of_getElem?_some inv.at_r
    refine ⟨_, { R with httprouter := some w.routers.length }, w.routers.length,
      HTTP_root_absent f w r R inv.at_r inv.is_root inv.unlocked hc, ?_, rfl, rfl, rfl,
      (fun c0 h0 => by cases h0), (fun _ => rfl),
      fun x hx => hx.grown inv.at_r inv.is_root _ _ _⟩
    constructor
    · exact grown_at_root _ _ _ _ hlt
    · exact inv.is_root
    · exact inv.unlocked
    · intro c h
      cases h
      exact ⟨_, w.tables.length, grown_at_new _ _ _ _ hlt, rfl, rfl, rfl, rfl,
        by simp [List.length_append]⟩
    · intro d hd
      exact (inv.https_leaf d hd).grown inv.at_r inv.is_root _ _ _
    · intro c d h1 h2
      cases h1
      obtain ⟨D, _, hD, _⟩ := inv.https_leaf d h2
      exact Nat.ne_of_gt (lt_of_getElem?_some hD)
    · intro c d C D h1 h2 hC hD
      cases h1
      have hl := inv.https_leaf d h2
      have hne := hl.ne_root inv.at_r inv.is_root
      obtain ⟨D0, t, hD0, _, _, _, ht, htlt⟩ := hl
      rw [grown_at_new _ _ _ _ hlt] at hC
      rw [grown_at_old _ _ _ _ _ _ hne hD0] at hD
      cases hC
      cases hD
      rw [ht]
      intro heq
      exact absurd (Option.some.inj heq) (Nat.ne_of_gt htlt)
    · intro t ht
      show t < (w.tables ++ [[]]).length
      rw [List.length_append]
      exact Nat.lt_add_right _ (inv.own_table t ht)
    · intro c C h hC
      rcases h with h | h
      · cases h
        rw [grown_at_new _ _ _ _ hlt] at hC
        cases hC
        intro heq
        exact absurd (inv.own_table w.tables.length heq.symm) (Nat.lt_irrefl _)
      · have hl := inv.https_leaf c h
        have hne := hl.ne_root inv.at_r inv.is_root
        obtain ⟨C0, t, hC0, _⟩ := hl
        rw [grown_at_old _ _ _ _ _ _ hne hC0] at hC
        have hCC : C0 = C := Option.some.inj hC
        rw [← hCC]
        exact inv.own_distinct c C0 (Or.inr h) hC0

/-- `HTTPS()` on a root in the invariant returns a child, and leaves the root
in the invariant with that child in `httpsrouter`, the non-TLS child and the
root's own Table pointer as before; a child already present is the one
returned and the heap is not touched. -/
theorem RootInv.after_HTTPS {w : World} {r : Ptr} {R : Router} (inv : RootInv w r R) (f : Nat) :
    ∃ w2 R2 d, HTTPS (f + 1) w r = .ok (w2, some d) ∧ RootInv w2 r R2
      ∧ R2.httpsrouter = some d ∧ R2.httprouter = R.httprouter ∧ R2.router = R.router
      ∧ (∀ d0, R.httpsrouter = some d0 → d0 = d ∧ w2 = w)
      ∧ (R.httpsrouter = none → d = w.routers.length)
      ∧ (∀ x, LeafOf w r x → LeafOf w2 r x) := by
  cases hc : R.httpsrouter with
  | some d =>
    exact ⟨w, R, d, HTTPS_root_present f w r R d inv.at_r inv.is_root inv.unlocked hc, inv, hc,
      rfl, rfl, fun d0 h0 => ⟨(Option.some.inj h0).symm, rfl⟩, (fun h => by cases h),
      fun _ hx => hx⟩
  | none =>
    have hlt := lt_of_getElem?_some inv.at_r
    refine ⟨_, { R with httpsrouter := some w.routers.length }, w.routers.length,
      HTTPS_root_absent f w r R inv.at_r inv.is_root inv.unlocked hc, ?_, rfl, rfl, rfl,
      (fun d0 h0 => by cases h0), (fun _ => rfl),
      fun x hx => hx.grown inv.at_r inv.is_root _ _ _⟩
    constructor
    · exact grown_at_root _ _ _ _ hlt
    · exact inv.is_root
    · exact inv.unlocked
    · intro c hc2
      exact (inv.http_leaf c hc2).grown inv.at_r inv.is_root _ _ _
    · intro d h
      cases h
      exact ⟨_, w.tables.length, grown_at_new _ _ _ _ hlt, rfl, rfl, rfl, rfl,
        by simp [List.length_append]⟩
    · intro c d h1 h2
      cases h2
      obtain ⟨C, _, hC, _⟩ := inv.http_leaf c h1
      exact Nat.ne_of_lt (lt_of_getElem?_some hC)
    · intro c d C D h1 h2 hC hD
      cases h2
      have hl := inv.http_leaf c h1
      have hne := hl.ne_root inv.at_r inv.is_root
      obtain ⟨C0, t, hC0, _, _, _, ht, htlt⟩ := hl
      rw [grown_at_new _ _ _ _ hlt] at hD
      rw [grown_at_old _ _ _ _ _ _ hne hC0] at hC
      cases hC
      cases hD
      rw [ht]
      intro heq
      exact absurd (Option.some.inj heq) (Nat.ne_of_lt htlt)
    · intro t ht
      show t < (w.tables ++ [[]]).length
      rw [List.length_append]
      exact Nat.lt_add_right _ (inv.own_table t ht)
    · intro c C h hC
      rcases h with h | h
      · have hl := inv.http_leaf c h
        have hne := hl.ne_root inv.at_r inv.is_root
        obtain ⟨C0, t, hC0, _⟩ := hl
        rw [grown_at_old _ _ _ _ _ _ hne hC0] at hC
        have hCC : C0 = C := Option.some.inj hC
        rw [← hCC]
        exact inv.own_distinct c C0 (Or.inl h) hC0
      · cases h
        rw [grown_at_new _ _ _ _ hlt] at hC
        cases hC
        intro heq
        exact absurd (inv.own_table w.tables.length heq.symm) (Nat.lt_irrefl _)

/-- The fresh root is in the invariant. -/
theorem freshWorld_inv : RootInv freshWorld 0 rootRouter where
  at_r := rfl
  is_root := rfl
  unlocked := rfl
  http_leaf := fun c h => by cases h
  https_leaf := fun d h => by cases h
  distinct := fun c d h => by cases h
  tables_distinct := fun c d C D h => by cases h
  own_table := fun t h => by cases h
  own_distinct := fun c C h => by rcases h with h | h <;> cases h

/-- One transport accessor call on a root in the invariant: it returns a child,
keeps the invariant, and keeps every child the root already had. -/
theorem RootInv.after_call {w : World} {r : Ptr} {R : Router} (inv : RootInv w r R) (f : Nat)
    (k : Transport) :
    ∃ w2 R2 c, k.call (f + 1) w r = .ok (w2, some c) ∧ RootInv w2 r R2
      ∧ k.child R2 = some c
      ∧ (∀ (k2 : Transport) (c0 : Ptr), k2.child R = some c0 → k2.child R2 = some c0) := by
  cases k with
  | http =>
    obtain ⟨w2, R2, c, h1, h2, h3, h4, _, h6, _⟩ := inv.after_HTTP f
    refine ⟨w2, R2, c, h1, h2, h3, ?_⟩
    intro k2 c0 h0
    cases k2 with
    | http =>
      obtain ⟨hc, _⟩ := h6 c0 h0
      rw [hc]; exact h3
    | https => exact h4.trans h0
  | https =>
    obtain ⟨w2, R2, c, h1, h2, h3, h4, _, h6, _⟩ := inv.after_HTTPS f
    refine ⟨w2, R2, c, h1, h2, h3, ?_⟩
    intro k2 c0 h0
    cases k2 with
    | http => exact h4.trans h0
    | https =>
      obtain ⟨hc, _⟩ := h6 c0 h0
      rw [hc]; exact h3

/-- Any sequence of transport accessor calls on a root in the invariant
returns, keeps the invariant and every child the root had, and each call
returns the child the root holds for that transport at the end. -/
theorem RootInv.after_runCalls {r : Ptr} (f : Nat) (ks : List Transport) :
    ∀ {w : World} {R : Router}, RootInv w r R →
    ∃ w2 R2 ps, runCalls (f + 1) ks w r = .ok (w2, ps) ∧ RootInv w2 r R2
      ∧ (∀ (k2 : Transport) (c0 : Ptr), k2.child R = some c0 → k2.child R2 = some c0)
      ∧ ps.length = ks.length
      ∧ (∀ (k : Transport) (p : Option Ptr), (k, p) ∈ ks.zip ps → p = k.child R2 ∧ p ≠ none) := by
  induction ks with
  | nil =>
    intro w R inv
    exact ⟨w, R, [], rfl, inv, fun _ _ h => h, rfl, fun k p h => by simp at h⟩
  | cons k ks ih =>
    intro w R inv
    obtain ⟨w1, R1, c, h1, inv1, hc1, hext1⟩ := inv.after_call f k
    obtain ⟨w2, R2, ps, h2, inv2, hext2, hlen, hall⟩ := ih inv1
    refine ⟨w2, R2, some c :: ps, ?_, inv2, fun k2 c0 h0 => hext2 k2 c0 (hext1 k2 c0 h0), ?_, ?_⟩
    · simp [Gramework.runCalls, h1, h2]
    · simp [hlen]
    · intro k2 p hmem
      rw [List.zip_cons_cons, List.mem_cons] at hmem
      rcases hmem with heq | hmem
      · cases heq
        exact ⟨(hext2 k c hc1).symm, by simp⟩
      · exact hall k2 p hmem

/-- C5: on a root in the shape the API leaves it, `HTTP()` called twice returns
the same child both times and the second call changes nothing in the heap; the
same holds for `HTTPS()`; the child of `HTTP()` and the child of `HTTPS()` are
different `Router`s owning different Tables; and over any sequence of `HTTP()`
and `HTTPS()` calls every call returns, a child the root already had is kept,
and all calls for one transport return the one child the root holds for it. -/
theorem HTTP_HTTPS_children (f : Nat) (w : World) (r : Ptr) (R : Router)
    (inv : RootInv w r R) :
    (∃ w1 c, HTTP (f + 1) w r = .ok (w1, some c) ∧ HTTP (f + 1) w1 r = .ok (w1, some c))
    ∧ (∃ w1 d, HTTPS (f + 1) w r = .ok (w1, some d) ∧ HTTPS (f + 1) w1 r = .ok (w1, some d))
    ∧ (∃ w1 c w2 d C D tc td, HTTP (f + 1) w r = .ok (w1, some c)
        ∧ HTTPS (f + 1) w1 r = .ok (w2, some d) ∧ c ≠ d
        ∧ w2.routers[c]? = some C ∧ w2.routers[d]? = some D
        ∧ C.router = some tc ∧ D.router = some td ∧ tc ≠ td)
    ∧ (∀ ks : List Transport, ∃ w2 R2 ps, runCalls (f + 1) ks w r = .ok (w2, ps)
        ∧ w2.routers[r]? = some R2
        ∧ (∀ c, R.httprouter = some c → R2.httprouter = some c)
        ∧ (∀ d, R.httpsrouter = some d → R2.httpsrouter = some d)
        ∧ ps.length = ks.length
        ∧ (∀ (k : Transport) (p : Option Ptr), (k, p) ∈ ks.zip ps → p = k.child R2 ∧ p ≠ none)
        ∧ (∀ c d, R2.httprouter = some c → R2.httpsrouter = some d → c ≠ d)) := by
  refine ⟨?_, ?_, ?_, ?_⟩
  · obtain ⟨w1, R1, c, h1, inv1, hc1, _⟩ := inv.after_HTTP f
    exact ⟨w1, c, h1, HTTP_root_present f w1 r R1 c inv1.at_r inv1.is_root inv1.unlocked hc1⟩
  · obtain ⟨w1, R1, d, h1, inv1, hd1, _⟩ := inv.after_HTTPS f
    exact ⟨w1, d, h1, HTTPS_root_present f w1 r R1 d inv1.at_r inv1.is_root inv1.unlocked hd1⟩
  · obtain ⟨w1, R1, c, h1, inv1, hc1, _⟩ := inv.after_HTTP f
    obtain ⟨w2, R2, d, h2, inv2, hd2, hc2, _⟩ := inv1.after_HTTPS f
    have hc3 : R2.httprouter = some c := hc2.trans hc1
    obtain ⟨C, tc, hC, _, _, _, htc, _⟩ := inv2.http_leaf c hc3
    obtain ⟨D, td, hD, _, _, _, htd, _⟩ := inv2.https_leaf d hd2
    refine ⟨w1, c, w2, d, C, D, tc, td, h1, h2, inv2.distinct c d hc3 hd2, hC, hD, htc, htd, ?_⟩
    intro heq
    apply inv2.tables_distinct c d C D hc3 hd2 hC hD
    rw [htc, htd, heq]
  · intro ks
    obtain ⟨w2, R2, ps, h2, inv2, hext, hlen, hall⟩ := RootInv.after_runCalls f ks inv
    exact ⟨w2, R2, ps, h2, inv2.at_r, fun c hc => hext Transport.http c hc,
      fun d hd => hext Transport.https d hd, hlen, hall, inv2.distinct⟩

theorem HTTP_HTTPS_children_witness :
    (∃ w1 c, HTTP 1 freshWorld 0 = .ok (w1, some c) ∧ HTTP 1 w1 0 = .ok (w1, some c))
    ∧ (∃ w1 d, HTTPS 1 freshWorld 0 = .ok (w1, some d) ∧ HTTPS 1 w1 0 = .ok (w1, some d))
    ∧ (∃ w1 c w2 d C D tc td, HTTP 1 freshWorld 0 = .ok (w1, some c)
        ∧ HTTPS 1 w1 0 = .ok (w2, some d) ∧ c ≠ d
        ∧ w2.routers[c]? = some C ∧ w2.routers[d]? = some D
        ∧ C.router = some tc ∧ D.router = some td ∧ tc ≠ td)
    ∧ (∀ ks : List Transport, ∃ w2 R2 ps, runCalls 1 ks freshWorld 0 = .ok (w2, ps)
        ∧ w2.routers[0]? = some R2
        ∧ (∀ c, rootRouter.httprouter = some c → R2.httprouter = some c)
        ∧ (∀ d, rootRouter.httpsrouter = some d → R2.httpsrouter = some d)
        ∧ ps.length = ks.length
        ∧ (∀ (k : Transport) (p : Option Ptr), (k, p) ∈ ks.zip ps → p = k.child R2 ∧ p ≠ none)
        ∧ (∀ c d, R2.httprouter = some c → R2.httpsrouter = some d → c ≠ d)) :=
  HTTP_HTTPS_children 0 freshWorld 0 rootRouter freshWorld_inv

theorem HTTP_root_fuel (f g : Nat) (w : World) (r : Ptr) (R : Router)
    (hr : w.routers[r]? = some R) (hroot : R.root = none) :
    HTTP (f + 1) w r = HTTP (g + 1) w r := by
  simp [HTTP, World.deref, hr, hroot]

theorem HTTPS_root_fuel (f g : Nat) (w : World) (r : Ptr) (R : Router)
    (hr : w.routers[r]? = some R) (hroot : R.root = none) :
    HTTPS (f + 1) w r = HTTPS (g + 1) w r := by
  simp [HTTPS, World.deref, hr, hroot]

/-- A transport accessor called on a leaf of `r` is the same call on `r`. -/
theorem Transport.call_leaf (k : Transport) (f : Nat) (w : World) (r x : Ptr) (R : Router)
    (hr : w.routers[r]? = some R) (hroot : R.root = none) (hl : LeafOf w r x) :
    k.call (f + 2) w x = k.call (f + 2) w r := by
  cases k with
  | http =>
    show HTTP (f + 2) w x = HTTP (f + 2) w r
    rw [HTTP_leaf (f + 1) w r x hl]
    exact HTTP_root_fuel f (f + 1) w r R hr hroot
  | https =>
    show HTTPS (f + 2) w x = HTTPS (f + 2) w r
    rw [HTTPS_leaf (f + 1) w r x hl]
    exact HTTPS_root_fuel f (f + 1) w r R hr hroot

/-- A transport accessor call on a root in the invariant keeps every leaf of
the root a leaf. -/
theorem RootInv.call_keeps_leaf {w : World} {r : Ptr} {R : Router} (inv : RootInv w r R)
    (f : Nat) (k : Transport) :
    ∃ w2 R2 c, k.call (f + 1) w r = .ok (w2, some c) ∧ RootInv w2 r R2
      ∧ k.child R2 = some c ∧ (∀ x, LeafOf w r x → LeafOf w2 r x) := by
  cases k with
  | http =>
    obtain ⟨w2, R2, c, h1, h2, h3, _, _, _, _, h8⟩ := inv.after_HTTP f
    exact ⟨w2, R2, c, h1, h2, h3, h8⟩
  | https =>
    obtain ⟨w2, R2, c, h1, h2, h3, _, _, _, _, h8⟩ := inv.after_HTTPS f
    exact ⟨w2, R2, c, h1, h2, h3, h8⟩

/-- C6: on a root `r` in the shape the API leaves it, `HTTP()` and `HTTPS()`
called on a transport-specific child return, and return what the same call
on `r` returns: `r.HTTP().HTTPS()` is `r.HTTPS()`, `r.HTTPS().HTTP()` is
`r.HTTP()`, `r.HTTP().HTTP()` is `r.HTTP()` and `r.HTTPS().HTTPS()` is
`r.HTTPS()`; afterwards both children still point back to `r` and have no
child of their own.  The same holds for any leaf of `r` and either call. -/
theorem leaf_calls_forward_to_root (f : Nat) (w : World) (r : Ptr) (R : Router)
    (inv : RootInv w r R) :
    (∃ w1 c w2 d, HTTP (f + 2) w r = .ok (w1, some c)
        ∧ HTTPS (f + 2) w1 r = .ok (w2, some d)
        ∧ callOn (HTTP (f + 2) w r) (HTTPS (f + 2)) = .ok (w2, some d)
        ∧ callOn (HTTP (f + 2) w r) (HTTP (f + 2)) = .ok (w1, some c)
        ∧ LeafOf w2 r c ∧ LeafOf w2 r d)
    ∧ (∃ w1 d w2 c, HTTPS (f + 2) w r = .ok (w1, some d)
        ∧ HTTP (f + 2) w1 r = .ok (w2, some c)
        ∧ callOn (HTTPS (f + 2) w r) (HTTP (f + 2)) = .ok (w2, some c)
        ∧ callOn (HTTPS (f + 2) w r) (HTTPS (f + 2)) = .ok (w1, some d)
        ∧ LeafOf w2 r c ∧ LeafOf w2 r d)
    ∧ (∀ (k : Transport) (x : Ptr), LeafOf w r x →
        k.call (f + 2) w x = k.call (f + 2) w r
        ∧ ∃ w2 p, k.call (f + 2) w x = .ok (w2, some p) ∧ LeafOf w2 r x ∧ LeafOf w2 r p) := by
  refine ⟨?_, ?_, ?_⟩
  · obtain ⟨w1, R1, c, h1, inv1, hc1, _⟩ := inv.after_HTTP (f + 1)
    obtain ⟨w2, R2, d, h2, inv2, hd2, hc2, _⟩ := inv1.after_HTTPS (f + 1)
    have hlc : LeafOf w1 r c := inv1.http_leaf c hc1
    have e1 : HTTPS (f + 2) w1 c = HTTPS (f + 2) w1 r :=
      Transport.call_leaf Transport.https f w1 r c R1 inv1.at_r inv1.is_root hlc
    have e2 : HTTP (f + 2) w1 c = HTTP (f + 2) w1 r :=
      Transport.call_leaf Transport.http f w1 r c R1 inv1.at_r inv1.is_root hlc
    have h3 : HTTP (f + 2) w1 r = .ok (w1, some c) :=
      HTTP_root_present (f + 1) w1 r R1 c inv1.at_r inv1.is_root inv1.unlocked hc1
    refine ⟨w1, c, w2, d, h1, h2, ?_, ?_, inv2.http_leaf c (hc2.trans hc1),
      inv2.https_leaf d hd2⟩
    · rw [h1]; show HTTPS (f + 2) w1 c = _; rw [e1, h2]
    · rw [h1]; show HTTP (f + 2) w1 c = _; rw [e2, h3]
  · obtain ⟨w1, R1, d, h1, inv1, hd1, _⟩ := inv.after_HTTPS (f + 1)
    obtain ⟨w2, R2, c, h2, inv2, hc2, hd2, _⟩ := inv1.after_HTTP (f + 1)
    have hld : LeafOf w1 r d := inv1.https_leaf d hd1
    have e1 : HTTP (f + 2) w1 d = HTTP (f + 2) w1 r :=
      Transport.call_leaf Transport.http f w1 r d R1 inv1.at_r inv1.is_root hld
    have e2 : HTTPS (f + 2) w1 d = HTTPS (f + 2) w1 r :=
      Transport.call_leaf Transport.https f w1 r d R1 inv1.at_r inv1.is_root hld
    have h3 : HTTPS (f + 2) w1 r = .ok (w1, some d) :=
      HTTPS_root_present (f + 1) w1 r R1 d inv1.at_r inv1.is_root inv1.unlocked hd1
    refine ⟨w1, d, w2, c, h1, h2, ?_, ?_, inv2.http_leaf c hc2,
      inv2.https_leaf d (hd2.trans hd1)⟩
    · rw [h1]; show HTTP (f + 2) w1 d = _; rw [e1, h2]
    · rw [h1]; show HTTPS (f + 2) w1 d = _; rw [e2, h3]
  · intro k x hl
    have e := Transport.call_leaf k f w r x R inv.at_r inv.is_root hl
    obtain ⟨w2, R2, p, h1, inv2, hp, hkeep⟩ := inv.call_keeps_leaf (f + 1) k
    refine ⟨e, w2, p, e.trans h1, hkeep x hl, ?_⟩
    cases k with
    | http => exact inv2.http_leaf p hp
    | https => exact inv2.https_leaf p hp

theorem leaf_calls_forward_to_root_witness :
    (∃ w1 c w2 d, HTTP 2 freshWorld 0 = .ok (w1, some c)
        ∧ HTTPS 2 w1 0 = .ok (w2, some d)
        ∧ callOn (HTTP 2 freshWorld 0) (HTTPS 2) = .ok (w2, some d)
        ∧ callOn (HTTP 2 freshWorld 0) (HTTP 2) = .ok (w1, some c)
        ∧ LeafOf w2 0 c ∧ LeafOf w2 0 d)
    ∧ (∃ w1 d w2 c, HTTPS 2 freshWorld 0 = .ok (w1, some d)
        ∧ HTTP 2 w1 0 = .ok (w2, some c)
        ∧ callOn (HTTPS 2 freshWorld 0) (HTTP 2) = .ok (w2, some c)
        ∧ callOn (HTTPS 2 freshWorld 0) (HTTPS 2) = .ok (w1, some d)
        ∧ LeafOf w2 0 c ∧ LeafOf w2 0 d)
    ∧ (∀ (k : Transport) (x : Ptr), LeafOf freshWorld 0 x →
        k.call 2 freshWorld x = k.call 2 freshWorld 0
        ∧ ∃ w2 p, k.call 2 freshWorld x = .ok (w2, some p) ∧ LeafOf w2 0 x ∧ LeafOf w2 0 p) :=
  leaf_calls_forward_to_root 0 freshWorld 0 rootRouter freshWorld_inv

/-! ## Registration on the root and dispatch -/

/-- Every method shortcut is `Handle` at some fixed method. -/
theorem shortcut_is_Handle
    (reg : Collab → World → Ptr → String → HandlerArg → Except Fault (World × Ptr))
    (hreg : reg ∈ shortcuts) :
    ∃ method, ∀ c w r route handler,
      reg c w r route handler = Handle c w r method route handler := by
  have key : ∀ c w r method route handler, (match Handle c w r method route handler with
      | .error e => (.error e : Except Fault (World × Ptr))
      | .ok (w1, _) => .ok (w1, r)) = Handle c w r method route handler := by
    intro c w r method route handler
    unfold Handle
    cases handleReg c w r method route handler <;> rfl
  simp only [shortcuts, List.mem_cons, List.mem_singleton, List.not_mem_nil, or_false] at hreg
  rcases hreg with h | h | h | h | h | h | h <;> subst h
  · exact ⟨MethodGET, fun c w r route handler => key c w r _ route handler⟩
  · exact ⟨MethodPOST, fun c w r route handler => key c w r _ route handler⟩
  · exact ⟨MethodPUT, fun c w r route handler => key c w r _ route handler⟩
  · exact ⟨MethodPATCH, fun c w r route handler => key c w r _ route handler⟩
  · exact ⟨MethodDELETE, fun c w r route handler => key c w r _ route handler⟩
  · exact ⟨MethodHEAD, fun c w r route handler => key c w r _ route handler⟩
  · exact ⟨MethodOPTIONS, fun c w r route handler => key c w r _ route handler⟩

/-- What `initRouter` leaves: the receiver has a Table, every other `Router`
and every other Table is as before. -/
theorem initRouter_frame (w : World) (r : Ptr) (R : Router)
    (hr : w.routers[r]? = some R) (hb : ∀ t, R.router = some t → t < w.tables.length) :
    ∃ w1 t T, initRouter w r = .ok w1
      ∧ w1.routers[r]? = some { R with router := some t }
      ∧ w1.tables[t]? = some T
      ∧ (∀ q, q ≠ r → w1.routers[q]? = w.routers[q]?)
      ∧ (∀ t2, t2 ≠ t → w1.tables[t2]? = w.tables[t2]?)
      ∧ (R.router = some t ∨ (R.router = none ∧ t = w.tables.length)) := by
  cases ht : R.router with
  | some t =>
    have hlt := hb t ht
    refine ⟨w, t, w.tables[t], initRouter_present w r R t hr ht, ?_,
      List.getElem?_eq_getElem hlt, fun _ _ => rfl, fun _ _ => rfl, Or.inl rfl⟩
    rw [hr, ← ht]
  | none =>
    have hlt := lt_of_getElem?_some hr
    refine ⟨_, w.tables.length, [], initRouter_absent w r R hr ht, ?_, ?_, ?_, ?_,
      Or.inr ⟨rfl, rfl⟩⟩
    · exact List.getElem?_set_self hlt
    · exact List.getElem?_concat_length _ _
    · intro q hq
      exact List.getElem?_set_ne (Ne.symm hq)
    · intro t2 ht2
      show (w.tables ++ [[]])[t2]? = w.tables[t2]?
      by_cases hlt2 : t2 < w.tables.length
      · exact List.getElem?_append_left hlt2
      · have h1 : w.tables.length + 1 ≤ t2 := by
          rcases Nat.lt_or_ge w.tables.length t2 with h | h
          · exact h
          · exact absurd (Nat.le_antisymm h (Nat.le_of_not_lt hlt2)) ht2
        rw [List.getElem?_eq_none (by simpa using h1),
          List.getElem?_eq_none (Nat.le_of_lt h1)]

/-- What a `handleReg` that returns has done: only the receiver's `router`
field, the receiver's own Table and the log can differ from before. -/
theorem handleReg_frame (c : Collab) (w w2 : World) (r : Ptr) (method route : String)
    (handler : HandlerArg) (R : Router)
    (hr : w.routers[r]? = some R) (hb : ∀ t, R.router = some t → t < w.tables.length)
    (h : handleReg c w r method route handler = .ok w2) :
    ∃ t, w2.routers[r]? = some { R with router := some t }
      ∧ (∀ q, q ≠ r → w2.routers[q]? = w.routers[q]?)
      ∧ (∀ t2, t2 ≠ t → w2.tables[t2]? = w.tables[t2]?)
      ∧ (R.router = some t ∨ (R.router = none ∧ t = w.tables.length)) := by
  obtain ⟨w1, t, T, h1, h2, h3, h4, h5, h6⟩ := initRouter_frame w r R hr hb
  have hw2 : ∃ hd, w2 = { w1 with
      log := w1.log ++ ["registering " ++ method ++ " " ++ route],
      tables := w1.tables.set t (T ++ [TableCall.handle method route hd]) } := by
    simp only [handleReg, h1, World.deref, h2] at h
    cases hA : R.app with
    | none => simp [hA] at h
    | some a =>
      cases hH : c.determineHandler handler with
      | none => simp [hA, hH] at h
      | some hd =>
        simp only [hA, hH, World.tableCall, World.table, h3, Except.ok.injEq] at h
        exact ⟨hd, h.symm⟩
  obtain ⟨hd, rfl⟩ := hw2
  refine ⟨t, h2, h4, ?_, h6⟩
  intro t2 ht2
  show (w1.tables.set t _)[t2]? = _
  rw [List.getElem?_set_ne (Ne.symm ht2)]
  exact h5 t2 ht2

/-- The `Process`/`NotFound` statement on a child gives the same result in two
heaps that agree on the child and on the child's Table. -/
theorem processOrNotFound_congr (c : Collab) (w w2 : World) (d : Ptr) (method path : String)
    (ctx : Context) (hd : w2.routers[d]? = w.routers[d]?)
    (ht : ∀ D td, w.routers[d]? = some D → D.router = some td →
      w2.tables[td]? = w.tables[td]?) :
    processOrNotFound c w2 (some d) method path ctx
      = processOrNotFound c w (some d) method path ctx := by
  simp only [processOrNotFound, World.deref, hd]
  cases hD : w.routers[d]? with
  | none => rfl
  | some D =>
    cases htd : D.router with
    | none => simp [htd]
    | some td => simp [htd, World.table, ht D td hD htd]

/-- The events of the `Process`/`NotFound` statement on a child are calls on
that child's Table. -/
theorem processOrNotFound_events (c : Collab) (w : World) (d : Ptr) (D : Router) (td : TPtr)
    (method path : String) (ctx ctx2 : Context) (tr : List Event)
    (hD : w.routers[d]? = some D) (htd : D.router = some td)
    (h : processOrNotFound c w (some d) method path ctx = .ok (tr, ctx2)) :
    ∀ e ∈ tr, e.table = td := by
  simp only [processOrNotFound, World.deref, hD, htd, World.table] at h
  cases hT : w.tables[td]? with
  | none => simp [hT] at h
  | some T =>
    simp only [hT] at h
    cases hp : (c.process T method path ctx).1 with
    | true =>
      simp only [hp, Bool.not_true, Bool.false_eq_true, if_false, Except.ok.injEq,
        Prod.mk.injEq] at h
      intro e he
      rw [← h.1] at he
      simp only [List.mem_singleton] at he
      subst he
      rfl
    | false =>
      simp only [hp, Bool.not_false, if_true, Except.ok.injEq, Prod.mk.injEq] at h
      intro e he
      rw [← h.1] at he
      simp only [List.mem_cons, List.mem_singleton, List.not_mem_nil, or_false] at he
      rcases he with he | he <;> subst he <;> rfl

/-- C10: on a root `r` in the shape the API leaves it, a registration made
directly on `r` (by `Handle` or a method shortcut) that returns leaves `r` with
a Table of its own, changes no other `Router` and no other Table, the Tables
of both children included; serving any request through `r.Handler()` gives the
same result, fault or events and context, after the registration as before;
and no event of a served request is a call on `r`'s own Table. -/
theorem root_registration_does_not_affect_dispatch (c : Collab) (w w2 : World) (r p : Ptr)
    (R : Router) (method route : String) (handler : HandlerArg) (inv : RootInv w r R)
    (hreg : Handle c w r method route handler = .ok (w2, p)
      ∨ ∃ reg ∈ shortcuts, reg c w r route handler = .ok (w2, p)) :
    ∃ t, w2.routers[r]? = some { R with router := some t }
      ∧ (∀ q, q ≠ r → w2.routers[q]? = w.routers[q]?)
      ∧ (∀ t2, t2 ≠ t → w2.tables[t2]? = w.tables[t2]?)
      ∧ (∀ x X, R.httprouter = some x ∨ R.httpsrouter = some x →
          w2.routers[x]? = some X → X.router ≠ some t)
      ∧ (∀ ctx, Handler c w2 r ctx = Handler c w r ctx)
      ∧ (∀ ctx tr ctx2, Handler c w r ctx = .ok (tr, ctx2) → ∀ e ∈ tr, e.table ≠ t)
      ∧ (∀ ctx tr ctx2, Handler c w2 r ctx = .ok (tr, ctx2) → ∀ e ∈ tr, e.table ≠ t) := by
  have hH : ∃ m, Handle c w r m route handler = .ok (w2, p) := by
    rcases hreg with h | ⟨reg, hmem, h⟩
    · exact ⟨method, h⟩
    · obtain ⟨m, hm⟩ := shortcut_is_Handle reg hmem
      exact ⟨m, by rw [← hm]; exact h⟩
  obtain ⟨m, hm⟩ := hH
  have hreg2 : handleReg c w r m route handler = .ok w2 := by
    unfold Handle at hm
    cases hq : handleReg c w r m route handler with
    | error e => simp [hq] at hm
    | ok w3 =>
      simp only [hq, Except.ok.injEq, Prod.mk.injEq] at hm
      rw [hm.1]
  obtain ⟨t, h1, h2, h3, h4⟩ := handleReg_frame c w w2 r m route handler R inv.at_r
    inv.own_table hreg2
  -- the Table of a child is not the root's own
  have hchild : ∀ x X, R.httprouter = some x ∨ R.httpsrouter = some x →
      w.routers[x]? = some X → x ≠ r ∧ X.router ≠ some t ∧ ∃ tx, X.router = some tx := by
    intro x X hx hX
    have hl : LeafOf w r x := by
      rcases hx with hx | hx
      · exact inv.http_leaf x hx
      · exact inv.https_leaf x hx
    have hne := hl.ne_root inv.at_r inv.is_root
    obtain ⟨X0, tx, hX0, _, _, _, htx, hlt⟩ := hl
    rw [hX] at hX0
    cases hX0
    refine ⟨hne, ?_, tx, htx⟩
    rcases h4 with h4 | ⟨_, h4⟩
    · rw [← h4]
      exact inv.own_distinct x X hx hX
    · rw [htx, h4]
      intro heq
      exact absurd (Option.some.inj heq) (Nat.ne_of_lt hlt)
  have hsame : ∀ ctx, Handler c w2 r ctx = Handler c w r ctx := by
    intro ctx
    rw [Handler_eq c w2 r _ ctx h1, Handler_eq c w r R ctx inv.at_r]
    show processOrNotFound c w2 R.httpsrouter _ _ _ = _
    cases hd : R.httpsrouter with
    | none => rfl
    | some d =>
      obtain ⟨D, td, hD, _⟩ := inv.https_leaf d hd
      have hne := (hchild d D (Or.inr hd) hD).1
      apply processOrNotFound_congr c w w2 d _ _ _ (h2 d hne)
      intro D2 td2 hD2 htd2
      apply h3
      intro heq
      exact (hchild d D2 (Or.inr hd) hD2).2.1 (by rw [htd2, heq])
  have hev : ∀ ctx tr ctx2, Handler c w r ctx = .ok (tr, ctx2) → ∀ e ∈ tr, e.table ≠ t := by
    intro ctx tr ctx2 hh e he
    rw [Handler_eq c w r R ctx inv.at_r] at hh
    cases hd : R.httpsrouter with
    | none => simp [hd, processOrNotFound] at hh
    | some d =>
      rw [hd] at hh
      obtain ⟨D, td, hD, _, _, _, htd, _⟩ := inv.https_leaf d hd
      rw [processOrNotFound_events c w d D td _ _ ctx ctx2 tr hD htd hh e he]
      intro heq
      exact (hchild d D (Or.inr hd) hD).2.1 (by rw [htd, heq])
  refine ⟨t, h1, h2, h3, ?_, hsame, hev, ?_⟩
  · intro x X hx hX
    cases hX0 : w.routers[x]? with
    | none =>
      have hl : LeafOf w r x := by
        rcases hx with hx | hx
        · exact inv.http_leaf x hx
        · exact inv.https_leaf x hx
      obtain ⟨X1, _, hX1, _⟩ := hl
      rw [hX0] at hX1
      cases hX1
    | some X0 =>
      have hc := hchild x X0 hx hX0
      rw [h2 x hc.1, hX0] at hX
      cases hX
      exact hc.2.1
  · intro ctx tr ctx2 hh
    rw [hsame ctx] at hh
    exact hev ctx tr ctx2 hh

/-- The heap with both children and empty Tables is in the invariant. -/
theorem bothEmptyWorld_inv : RootInv bothEmptyWorld 0 bothRoot where
  at_r := rfl
  is_root := rfl
  unlocked := rfl
  http_leaf := fun c h => by
    cases h
    exact ⟨_, 0, rfl, rfl, rfl, rfl, rfl, by decide⟩
  https_leaf := fun d h => by
    cases h
    exact ⟨_, 1, rfl, rfl, rfl, rfl, rfl, by decide⟩
  distinct := fun c d h1 h2 => by
    cases h1
    cases h2
    decide
  tables_distinct := fun c d C D h1 h2 hC hD => by
    cases h1
    cases h2
    cases hC
    cases hD
    decide
  own_table := fun t h => by cases h
  own_distinct := fun c C h hC => by
    rcases h with h | h <;> cases h <;> cases hC <;> decide

theorem root_registration_does_not_affect_dispatch_witness :
    RootInv bothEmptyWorld 0 bothRoot
    ∧ Handle sampleCollab bothEmptyWorld 0 "GET" "/x" (HandlerArg.fn (writer "root"))
        = .ok (rootRegisteredWorld, 0)
    ∧ (∀ ctx, Handler sampleCollab rootRegisteredWorld 0 ctx
        = Handler sampleCollab bothEmptyWorld 0 ctx) :=
  ⟨bothEmptyWorld_inv, rfl,
    let ⟨_, h⟩ := root_registration_does_not_affect_dispatch sampleCollab bothEmptyWorld
      rootRegisteredWorld 0 0 bothRoot "GET" "/x" (HandlerArg.fn (writer "root"))
      bothEmptyWorld_inv (Or.inl rfl)
    h.2.2.2.2.1⟩

/-! ## The invariant holds in every reachable heap -/

/-- The invariant reads only the `Router`s and the number of Tables. -/
theorem RootInv.of_same_routers {w w2 : World} {r : Ptr} {R : Router} (inv : RootInv w r R)
    (h1 : w2.routers = w.routers) (h2 : w2.tables.length = w.tables.length) :
    RootInv w2 r R := by
  have hl : ∀ x, LeafOf w r x → LeafOf w2 r x := by
    intro x ⟨X, t, a1, a2, a3, a4, a5, a6⟩
    exact ⟨X, t, by rw [h1]; exact a1, a2, a3, a4, a5, by rw [h2]; exact a6⟩
  constructor
  · rw [h1]; exact inv.at_r
  · exact inv.is_root
  · exact inv.unlocked
  · exact fun c hc => hl c (inv.http_leaf c hc)
  · exact fun d hd => hl d (inv.https_leaf d hd)
  · exact inv.distinct
  · intro c d C D a1 a2 a3 a4
    rw [h1] at a3 a4
    exact inv.tables_distinct c d C D a1 a2 a3 a4
  · intro t ht
    rw [h2]
    exact inv.own_table t ht
  · intro c C a1 a2
    rw [h1] at a2
    exact inv.own_distinct c C a1 a2

theorem tableCall_same_routers {w w2 : World} {t : Option TPtr} {call : TableCall}
    (h : w.tableCall t call = .ok w2) :
    w2.routers = w.routers ∧ w2.tables.length = w.tables.length := by
  unfold World.tableCall at h
  cases hT : w.table t with
  | error e => simp [hT] at h
  | ok T =>
    cases t with
    | none => simp [hT] at h
    | some tp =>
      simp only [hT, Except.ok.injEq] at h
      subst h
      exact ⟨rfl, by simp⟩

/-- `initRouter` on the root or on one of its leaves keeps the invariant and
the children. -/
theorem RootInv.after_initRouter {w w2 : World} {r q : Ptr} {R : Router}
    (inv : RootInv w r R) (hq : q = r ∨ LeafOf w r q) (h : initRouter w q = .ok w2) :
    ∃ R2, RootInv w2 r R2 ∧ R2.httprouter = R.httprouter ∧ R2.httpsrouter = R.httpsrouter
      ∧ (∀ x, LeafOf w r x → LeafOf w2 r x) := by
  rcases hq with hq | hq
  · subst hq
    cases ht : R.router with
    | some t =>
      rw [initRouter_present w q R t inv.at_r ht] at h
      cases h
      exact ⟨R, inv, rfl, rfl, fun _ hx => hx⟩
    | none =>
      rw [initRouter_absent w q R inv.at_r ht] at h
      cases h
      have hlt := lt_of_getElem?_some inv.at_r
      have hl : ∀ x, LeafOf w q x → LeafOf
          { w with routers := w.routers.set q { R with router := some w.tables.length },
                   tables := w.tables ++ [[]] } q x := by
        intro x hx
        have hne := hx.ne_root inv.at_r inv.is_root
        obtain ⟨X, t, a1, a2, a3, a4, a5, a6⟩ := hx
        refine ⟨X, t, ?_, a2, a3, a4, a5, ?_⟩
        · show (w.routers.set q _)[x]? = some X
          rw [List.getElem?_set_ne (Ne.symm hne)]
          exact a1
        · show t < (w.tables ++ [[]]).length
          rw [List.length_append]
          exact Nat.lt_add_right _ a6
      refine ⟨{ R with router := some w.tables.length }, ?_, rfl, rfl, hl⟩
      constructor
      · exact List.getElem?_set_self hlt
      · exact inv.is_root
      · exact inv.unlocked
      · exact fun c hc => hl c (inv.http_leaf c hc)
      · exact fun d hd => hl d (inv.https_leaf d hd)
      · exact inv.distinct
      · intro c d C D a1 a2 a3 a4
        have hc := (inv.http_leaf c a1).ne_root inv.at_r inv.is_root
        have hd := (inv.https_leaf d a2).ne_root inv.at_r inv.is_root
        have b3 : w.routers[c]? = some C := by
          rw [← a3]; exact (List.getElem?_set_ne (Ne.symm hc)).symm
        have b4 : w.routers[d]? = some D := by
          rw [← a4]; exact (List.getElem?_set_ne (Ne.symm hd)).symm
        exact inv.tables_distinct c d C D a1 a2 b3 b4
      · intro t ht2
        cases ht2
        show w.tables.length < (w.tables ++ [[]]).length
        simp
      · intro c C a1 a2
        have hlf : LeafOf w q c := by
          rcases a1 with a1 | a1
          · exact inv.http_leaf c a1
          · exact inv.https_leaf c a1
        have hc := hlf.ne_root inv.at_r inv.is_root
        obtain ⟨C0, t, b1, _, _, _, b5, b6⟩ := hlf
        have b3 : w.routers[c]? = some C := by
          rw [← a2]; exact (List.getElem?_set_ne (Ne.symm hc)).symm
        rw [b1] at b3
        cases b3
        rw [b5]
        intro heq
        exact absurd (Option.some.inj heq) (Nat.ne_of_lt b6)
  · obtain ⟨Q, t, a1, _, _, _, a5, _⟩ := hq
    rw [initRouter_present w q Q t a1 a5] at h
    cases h
    exact ⟨R, inv, rfl, rfl, fun _ hx => hx⟩

/-- `initRouter` followed by a configuration call on the receiver's Table keeps
the invariant and the children. -/
theorem RootInv.after_ensured_call {w w2 : World} {r q : Ptr} {R : Router}
    (inv : RootInv w r R) (hq : q = r ∨ LeafOf w r q) (call : TableCall)
    (h : (match initRouter w q with
      | Except.error e => Except.error e
      | Except.ok w1 =>
        match w1.deref q with
        | Except.error e => Except.error e
        | Except.ok Q => w1.tableCall Q.router call) = Except.ok w2) :
    ∃ R2, RootInv w2 r R2 ∧ R2.httprouter = R.httprouter ∧ R2.httpsrouter = R.httpsrouter
      ∧ (∀ x, LeafOf w r x → LeafOf w2 r x) := by
  cases hi : initRouter w q with
  | error e => simp [hi] at h
  | ok w1 =>
    obtain ⟨R1, inv1, b1, b2, b3⟩ := inv.after_initRouter hq hi
    simp only [hi] at h
    cases hd : w1.deref q with
    | error e => simp [hd] at h
    | ok Q =>
      simp only [hd] at h
      obtain ⟨c1, c2⟩ := tableCall_same_routers h
      have inv2 := inv1.of_same_routers c1 c2
      refine ⟨R1, inv2, b1, b2, fun x hx => ?_⟩
      obtain ⟨X, t, a1, a2, a3, a4, a5, a6⟩ := b3 x hx
      exact ⟨X, t, by rw [c1]; exact a1, a2, a3, a4, a5, by rw [c2]; exact a6⟩

theorem RootInv.of_log {w : World} {r : Ptr} {R : Router} (inv : RootInv w r R)
    (l : List String) : RootInv { w with log := l } r R :=
  inv.of_same_routers rfl rfl

/-- A registration on the root or on one of its leaves keeps the invariant. -/
theorem RootInv.after_handleReg {w w2 : World} {r q : Ptr} {R : Router}
    (inv : RootInv w r R) (hq : q = r ∨ LeafOf w r q) (c : Collab) (method route : String)
    (handler : HandlerArg) (h : handleReg c w q method route handler = .ok w2) :
    ∃ R2, RootInv w2 r R2 := by
  unfold handleReg at h
  cases hi : initRouter w q with
  | error e => simp [hi] at h
  | ok w1 =>
    obtain ⟨R1, inv1, _⟩ := inv.after_initRouter hq hi
    simp only [hi] at h
    cases hd : w1.deref q with
    | error e => simp [hd] at h
    | ok Q =>
      simp only [hd] at h
      cases hA : Q.app with
      | none => simp [hA] at h
      | some a =>
        simp only [hA] at h
        cases hH : c.determineHandler handler with
        | none => simp [hH] at h
        | some hd2 =>
          simp only [hH] at h
          obtain ⟨c1, c2⟩ := tableCall_same_routers h
          exact ⟨R1, (inv1.of_log _).of_same_routers c1 c2⟩

theorem RootInv.after_Handle {w w2 : World} {r q p : Ptr} {R : Router}
    (inv : RootInv w r R) (hq : q = r ∨ LeafOf w r q) (c : Collab) (method route : String)
    (handler : HandlerArg) (h : Handle c w q method route handler = .ok (w2, p)) :
    ∃ R2, RootInv w2 r R2 := by
  unfold Handle at h
  cases hr : handleReg c w q method route handler with
  | error e => simp [hr] at h
  | ok w3 =>
    simp only [hr, Except.ok.injEq, Prod.mk.injEq] at h
    rw [← h.1]
    exact inv.after_handleReg hq c method route handler hr

/-- A transport accessor call on the root or on one of its leaves that returns
keeps the invariant. -/
theorem RootInv.after_transport {w w2 : World} {r q : Ptr} {R : Router}
    (inv : RootInv w r R) (hq : q = r ∨ LeafOf w r q) (k : Transport) (fuel : Nat)
    (p : Option Ptr) (h : k.call fuel w q = .ok (w2, p)) : ∃ R2, RootInv w2 r R2 := by
  have root_case : ∀ f, k.call (f + 1) w r = .ok (w2, p) → ∃ R2, RootInv w2 r R2 := by
    intro f hf
    obtain ⟨w3, R3, c, h1, inv3, _⟩ := inv.after_call f k
    rw [h1] at hf
    simp only [Except.ok.injEq, Prod.mk.injEq] at hf
    rw [← hf.1]
    exact ⟨R3, inv3⟩
  rcases hq with hq | hq
  · subst hq
    cases fuel with
    | zero => cases k <;> simp [Transport.call, HTTP, HTTPS] at h
    | succ f => exact root_case f h
  · cases fuel with
    | zero => cases k <;> simp [Transport.call, HTTP, HTTPS] at h
    | succ f =>
      cases f with
      | zero =>
        cases k with
        | http =>
          have h2 : HTTP (0 + 1) w q = .ok (w2, p) := h
          rw [HTTP_leaf 0 w r q hq] at h2
          simp [HTTP] at h2
        | https =>
          have h2 : HTTPS (0 + 1) w q = .ok (w2, p) := h
          rw [HTTPS_leaf 0 w r q hq] at h2
          simp [HTTPS] at h2
      | succ f =>
        rw [Transport.call_leaf k f w r q R inv.at_r inv.is_root hq] at h
        exact root_case (f + 1) h

/-- Every heap-changing call on the root or on one of its leaves that returns
keeps the invariant. -/
theorem RootInv.after_run {w w2 : World} {r : Ptr} {R : Router} (inv : RootInv w r R)
    (c : Collab) (fuel : Nat) (a : ApiCall) (hq : a.receiver = r ∨ LeafOf w r a.receiver)
    (h : a.run c fuel w = .ok w2) : ∃ R2, RootInv w2 r R2 := by
  cases a with
  | http q =>
    simp only [ApiCall.run] at h
    cases hc : HTTP fuel w q with
    | error e => simp [hc, Except.map] at h
    | ok res =>
      simp only [hc, Except.map, Except.ok.injEq] at h
      rw [← h]
      exact inv.after_transport hq Transport.http fuel res.2 hc
  | https q =>
    simp only [ApiCall.run] at h
    cases hc : HTTPS fuel w q with
    | error e => simp [hc, Except.map] at h
    | ok res =>
      simp only [hc, Except.map, Except.ok.injEq] at h
      rw [← h]
      exact inv.after_transport hq Transport.https fuel res.2 hc
  | handle q method route handler =>
    simp only [ApiCall.run] at h
    cases hc : Handle c w q method route handler with
    | error e => simp [hc, Except.map] at h
    | ok res =>
      simp only [hc, Except.map, Except.ok.injEq] at h
      rw [← h]
      exact inv.after_Handle hq c method route handler hc
  | redir q route url =>
    simp only [ApiCall.run, Redir, GET] at h
    cases hc : Handle c w q MethodGET route
        (HandlerArg.fn (fun ctx => ctx.Redirect route redirectCode)) with
    | error e => simp [hc] at h
    | ok res =>
      simp only [hc, Except.ok.injEq] at h
      rw [← h]
      exact inv.after_Handle hq c _ route _ hc
  | panicHandler q ph =>
    obtain ⟨R2, inv2, _⟩ := inv.after_ensured_call hq (TableCall.panicHandler ph) h
    exact ⟨R2, inv2⟩
  | notFound q nf =>
    obtain ⟨R2, inv2, _⟩ := inv.after_ensured_call hq (TableCall.setNotFound nf) h
    exact ⟨R2, inv2⟩
  | handleMethodNotAllowed q v =>
    simp only [ApiCall.run, HandleMethodNotAllowed] at h
    cases hi : initRouter w q with
    | error e => simp [hi, Except.map] at h
    | ok w1 =>
      obtain ⟨R1, inv1, _⟩ := inv.after_initRouter hq hi
      simp only [hi] at h
      cases hd : w1.deref q with
      | error e => simp [hd, Except.map] at h
      | ok Q =>
        simp only [hd] at h
        cases hT : w1.table Q.router with
        | error e => simp [hT, Except.map] at h
        | ok T =>
          simp only [hT] at h
          cases hc : w1.tableCall Q.router (TableCall.handleMethodNotAllowed v) with
          | error e => simp [hc, Except.map] at h
          | ok w3 =>
            simp only [hc, Except.map, Except.ok.injEq] at h
            rw [← h]
            obtain ⟨c1, c2⟩ := tableCall_same_routers hc
            exact ⟨R1, inv1.of_same_routers c1 c2⟩
  | handleOPTIONS q v =>
    simp only [ApiCall.run, HandleOPTIONS] at h
    cases hi : initRouter w q with
    | error e => simp [hi, Except.map] at h
    | ok w1 =>
      obtain ⟨R1, inv1, _⟩ := inv.after_initRouter hq hi
      simp only [hi] at h
      cases hd : w1.deref q with
      | error e => simp [hd, Except.map] at h
      | ok Q =>
        simp only [hd] at h
        cases hT : w1.table Q.router with
        | error e => simp [hT, Except.map] at h
        | ok T =>
          simp only [hT] at h
          cases hc : w1.tableCall Q.router (TableCall.handleOPTIONS v) with
          | error e => simp [hc, Except.map] at h
          | ok w3 =>
            simp only [hc, Except.map, Except.ok.injEq] at h
            rw [← h]
            obtain ⟨c1, c2⟩ := tableCall_same_routers hc
            exact ⟨R1, inv1.of_same_routers c1 c2⟩
  | serveFiles q path rootPath =>
    simp only [ApiCall.run, ServeFiles] at h
    cases hd : w.deref q with
    | error e => simp [hd] at h
    | ok Q =>
      simp only [hd] at h
      obtain ⟨c1, c2⟩ := tableCall_same_routers h
      exact ⟨R, inv.of_same_routers c1 c2⟩
  | methodNotAllowed q mh =>
    simp only [ApiCall.run, MethodNotAllowed] at h
    cases hd : w.deref q with
    | error e => simp [hd] at h
    | ok Q =>
      simp only [hd] at h
      obtain ⟨c1, c2⟩ := tableCall_same_routers h
      exact ⟨R, inv.of_same_routers c1 c2⟩

/-- Every heap reached from the fresh root through the methods of `router.go`
has its root in the invariant. -/
theorem reachable_inv (c : Collab) (w : World) (h : Reachable c w) : ∃ R, RootInv w 0 R := by
  induction h with
  | fresh => exact ⟨rootRouter, freshWorld_inv⟩
  | step w w2 fuel a _ hq hrun ih =>
    obtain ⟨R, inv⟩ := ih
    exact inv.after_run c fuel a hq hrun

end Gramework
